import Mathlib

/-!
Shallow embedding of the epdoptimize dithering library (python sources under
src/python/epdoptimize) and proofs about it.  Pixel channel values, which the
python code keeps as float64, are modelled as exact rationals; pixel buffers
are flat row-major RGBA lists as in the code.  A python exception or a python
None result is modelled as an `Option` that is `none`.
-/

set_option maxHeartbeats 1000000

namespace EpdOptimize

/-! ### color_helpers.py -/

/-- Membership in the regex character class [a-f\d] with re.IGNORECASE,
used by hex_to_rgb in color_helpers.py. -/
def isHexChar (c : Char) : Bool :=
  (decide ('a' ≤ c) && decide (c ≤ 'f')) ||
  (decide ('A' ≤ c) && decide (c ≤ 'F')) || c.isDigit

/-- Numeric value of a hex digit, as produced by python int(_, 16). -/
def hexVal (c : Char) : ℕ :=
  if c.isDigit then c.toNat - '0'.toNat
  else if decide ('a' ≤ c) && decide ('f' ≥ c) then c.toNat - 'a'.toNat + 10
  else if decide ('A' ≤ c) && decide ('F' ≥ c) then c.toNat - 'A'.toNat + 10
  else 0

/-- The optional leading hash consumed by the regexes of hex_to_rgb. -/
def stripHash : List Char → List Char
  | '#' :: rest => rest
  | l => l

/-- The shorthand regex stage of hex_to_rgb: a 3-hex-digit string has every
digit doubled, anything else is left unchanged. -/
def expandShorthand : List Char → List Char
  | [a, b, c] =>
    if isHexChar a && isHexChar b && isHexChar c then [a, a, b, b, c, c] else [a, b, c]
  | l => l

/-- The full regex stage of hex_to_rgb: exactly 6 hex digits parse into
[R, G, B], anything else yields no value (python None). -/
def parseSixHex : List Char → Option (List ℕ)
  | [h1, h2, h3, h4, h5, h6] =>
    if isHexChar h1 && isHexChar h2 && isHexChar h3 && isHexChar h4 &&
       isHexChar h5 && isHexChar h6 then
      some [16 * hexVal h1 + hexVal h2, 16 * hexVal h3 + hexVal h4, 16 * hexVal h5 + hexVal h6]
    else none
  | _ => none

/-- Embeds color_helpers.hex_to_rgb: a shorthand 3-hex-digit string is first
expanded by doubling each digit, then a 6-hex-digit string is parsed into
[R, G, B]; anything else yields no value (python None). -/
def hex_to_rgb (s : String) : Option (List ℕ) :=
  parseSixHex (expandShorthand (stripHash s.data))

/-! ### palette data and set_color_palette (dither.py, __init__.py) -/

/-- Modelled from the spec: the palette table data/default_palettes.json is not
under src/ (dither.py loads it at import time).  Per the spec it is a
named-palette lookup table keyed by case-folded (lowercase) name, with keys
default, gameboy, spectra6 and acep, the default palette being black and
white.  The hex values of the non-default palettes are representative; the
theorems below rely only on the keys being lowercase and on the gameboy
palette differing from the default one. -/
def PALETTES : List (String × List String) :=
  [("default", ["#000000", "#ffffff"]),
   ("gameboy", ["#0f380f", "#306230", "#8bac0f", "#9bbc0f"]),
   ("spectra6", ["#000000", "#ffffff", "#ff0000", "#ffff00", "#0000ff", "#00ff00"]),
   ("acep", ["#000000", "#ffffff", "#00ff00", "#0000ff", "#ff0000", "#ffff00", "#ff8000"])]

/-- Embeds the python dict access PALETTES.get(name, PALETTES["default"]) used
by set_color_palette in dither.py (no case folding there). -/
def palettesGet (name : String) : List String :=
  (PALETTES.lookup name).getD ((PALETTES.lookup "default").getD [])

/-- The python Union[str, List[str]] argument of set_color_palette. -/
inductive PaletteSpec where
  | name (s : String)
  | colors (l : List String)

/-- Embeds dither.set_color_palette: a registered name resolves through the
palette table (falling back to the default entry), an explicit list is taken
as is; every hex string is then parsed with hex_to_rgb, a malformed entry
becoming a python None, modelled as `none`. -/
def set_color_palette : PaletteSpec → List (Option (List ℕ))
  | .name s => (palettesGet s).map hex_to_rgb
  | .colors l => l.map hex_to_rgb

/-- ASCII lowercasing of one character, the effect of python str.lower() on
the ASCII palette names involved. -/
def lowerChar (c : Char) : Char :=
  if 'A' ≤ c ∧ c ≤ 'Z' then Char.ofNat (c.toNat + 32) else c

/-- ASCII lowercasing of a string (python str.lower() on ASCII input). -/
def lowerKey (s : String) : String := ⟨s.data.map lowerChar⟩

/-- Embeds get_default_palettes from __init__.py, which case-folds its key
before the lookup. -/
def get_default_palettes (name : String) : List String :=
  (PALETTES.lookup (lowerKey name)).getD ((PALETTES.lookup "default").getD [])

/-! ### find_closest_color.py -/

/-- Radicand of distance_in_color_space: the source returns
math.sqrt of this value, computed from the first three channels only (alpha
is ignored).  Comparisons of the square roots of nonnegative radicands agree
with comparisons of the radicands, which the theorems below make explicit
through Real.sqrt. -/
def distance_sq (color : List ℕ) (pixel : List ℚ) : ℚ :=
  ((color.getD 0 0 : ℚ) - pixel.getD 0 0) * ((color.getD 0 0 : ℚ) - pixel.getD 0 0) +
  ((color.getD 1 0 : ℚ) - pixel.getD 1 0) * ((color.getD 1 0 : ℚ) - pixel.getD 1 0) +
  ((color.getD 2 0 : ℚ) - pixel.getD 2 0) * ((color.getD 2 0 : ℚ) - pixel.getD 2 0)

/-- The selection loop of find_closest_palette_color: closest starts as the
first entry and is replaced only on strictly smaller distance, so the first
entry attaining the minimum wins. -/
def pickClosest : List (ℚ × List ℕ) → Option (ℚ × List ℕ)
  | [] => none
  | e :: rest => some (rest.foldl (fun best entry => if entry.1 < best.1 then entry else best) e)

/-- The first loop of find_closest_palette_color, building the list of
(distance, color) records in palette order; a python None entry reaching
distance_in_color_space raises, modelled as `none`. -/
def colors_with_distance (pixel : List ℚ) : List (Option (List ℕ)) → Option (List (ℚ × List ℕ))
  | [] => some []
  | none :: _ => none
  | some c :: rest => (colors_with_distance pixel rest).map
      (fun t => (distance_sq c pixel, c) :: t)

/-- Embeds find_closest_palette_color.  The palette is the output of
set_color_palette, so an entry can be a python None; computing the distance of
such an entry raises in python, modelled as `none`.  An empty palette also
yields `none` (the python code would subscript None).  If the winning entry
has fewer than 4 channels, 255 is appended as alpha. -/
def find_closest_palette_color (pixel : List ℚ) (palette : List (Option (List ℕ))) :
    Option (List ℕ) := do
  let cwd ← colors_with_distance pixel palette
  let winner ← pickClosest cwd
  pure (if winner.2.length < 4 then winner.2 ++ [255] else winner.2)

/-- The winning color as rationals, as it is consumed by the float pixel
buffer of dither.py. -/
def find_closest_q (pixel : List ℚ) (palette : List (Option (List ℕ))) : Option (List ℚ) :=
  (find_closest_palette_color pixel palette).map (fun c => c.map (fun v : ℕ => (v : ℚ)))

/-! ### bayer_matrix.py -/

/-- The 8x8 matrix literal big_matrix of create_bayer_matrix, copied verbatim
from the source (note that its rows 1 and 3 both contain the value 32 and
that 23 does not occur). -/
def big_matrix : List (List ℕ) :=
  [[0, 48, 12, 60, 3, 51, 15, 63],
   [32, 16, 44, 28, 35, 19, 47, 31],
   [8, 56, 4, 52, 11, 59, 7, 55],
   [40, 24, 36, 20, 43, 27, 39, 32],
   [2, 50, 14, 62, 1, 49, 13, 61],
   [34, 18, 46, 30, 33, 17, 45, 29],
   [10, 58, 6, 54, 9, 57, 5, 53],
   [42, 26, 38, 22, 41, 25, 37, 21]]

/-- The size clamping of create_bayer_matrix:
min(size, 8) if size < 8 else 8. -/
def bayerDim (n : ℕ) : ℕ := if n < 8 then min n 8 else 8

/-- The transposed extraction loop of create_bayer_matrix:
row y, column x of the small matrix reads big_matrix[x][y]. -/
def bayerSample (width height : ℕ) : List (List ℕ) :=
  (List.range height).map (fun y =>
    (List.range width).map (fun x => (big_matrix.getD x []).getD y 0))

/-- The dict comprehension building index_map in create_bayer_matrix: a value
maps to its index in the sorted flat list, a duplicated value receiving the
last such index (later dict assignments overwrite earlier ones). -/
def lastIndexIn (sorted : List ℕ) (v : ℕ) : ℕ :=
  sorted.enum.foldl (fun acc p => if p.2 = v then p.1 else acc) 0

/-- Embeds create_bayer_matrix: clamp the requested size to at most 8, return
big_matrix verbatim for the full 8x8 size, otherwise sample with x and y
swapped and re-index the sampled values through their positions in the
ascending sort of the flattened sample. -/
def create_bayer_matrix (w h : ℕ) : List (List ℕ) :=
  let width := bayerDim w
  let height := bayerDim h
  if width = 8 ∧ height = 8 then big_matrix
  else
    let matrix := bayerSample width height
    let sorted := matrix.flatten.insertionSort (· ≤ ·)
    matrix.map (fun row => row.map (fun v => lastIndexIn sorted v))

/-! ### diffusion_maps.py -/

/-- One entry of an error-diffusion kernel: an (x, y) offset and a weight. -/
structure DiffEntry where
  offset : ℤ × ℤ
  factor : ℚ
deriving DecidableEq

def floyd_steinberg : List DiffEntry :=
  [⟨(1, 0), 7/16⟩, ⟨(-1, 1), 3/16⟩, ⟨(0, 1), 5/16⟩, ⟨(1, 1), 1/16⟩]

def false_floyd_steinberg : List DiffEntry :=
  [⟨(1, 0), 3/8⟩, ⟨(0, 1), 3/8⟩, ⟨(1, 1), 2/8⟩]

def jarvis : List DiffEntry :=
  [⟨(1, 0), 7/48⟩, ⟨(2, 0), 5/48⟩, ⟨(-2, 1), 3/48⟩, ⟨(-1, 1), 5/48⟩, ⟨(0, 1), 7/48⟩,
   ⟨(1, 1), 5/48⟩, ⟨(2, 1), 3/48⟩, ⟨(-2, 2), 1/48⟩, ⟨(-1, 2), 3/48⟩, ⟨(0, 2), 4/48⟩,
   ⟨(1, 2), 3/48⟩, ⟨(2, 2), 1/48⟩]

def stucki : List DiffEntry :=
  [⟨(1, 0), 8/42⟩, ⟨(2, 0), 4/42⟩, ⟨(-2, 1), 2/42⟩, ⟨(-1, 1), 4/42⟩, ⟨(0, 1), 8/42⟩,
   ⟨(1, 1), 4/42⟩, ⟨(2, 1), 2/42⟩, ⟨(-2, 2), 1/42⟩, ⟨(-1, 2), 2/42⟩, ⟨(0, 2), 4/42⟩,
   ⟨(1, 2), 2/42⟩, ⟨(2, 2), 1/42⟩]

def burkes : List DiffEntry :=
  [⟨(1, 0), 8/32⟩, ⟨(2, 0), 4/32⟩, ⟨(-2, 1), 2/32⟩, ⟨(-1, 1), 4/32⟩, ⟨(0, 1), 8/32⟩,
   ⟨(1, 1), 4/32⟩, ⟨(2, 1), 2/32⟩]

def sierra3 : List DiffEntry :=
  [⟨(1, 0), 5/32⟩, ⟨(2, 0), 3/32⟩, ⟨(-2, 1), 2/32⟩, ⟨(-1, 1), 4/32⟩, ⟨(0, 1), 5/32⟩,
   ⟨(1, 1), 4/32⟩, ⟨(2, 1), 2/32⟩, ⟨(-1, 2), 2/32⟩, ⟨(0, 2), 3/32⟩, ⟨(1, 2), 2/32⟩]

def sierra2 : List DiffEntry :=
  [⟨(1, 0), 4/16⟩, ⟨(2, 0), 3/16⟩, ⟨(-2, 1), 1/16⟩, ⟨(-1, 1), 2/16⟩, ⟨(0, 1), 3/16⟩,
   ⟨(1, 1), 2/16⟩, ⟨(2, 1), 1/16⟩]

def sierra2_4a : List DiffEntry :=
  [⟨(1, 0), 2/4⟩, ⟨(-2, 1), 1/4⟩, ⟨(-1, 1), 1/4⟩]

/-- Embeds get_diffusion_map: a dict lookup over the eight registered kernel
names (note the capitalised "Sierra2-4A" key), any other name falling back to
Floyd-Steinberg. -/
def get_diffusion_map (name : String) : List DiffEntry :=
  if name = "floydSteinberg" then floyd_steinberg
  else if name = "falseFloydSteinberg" then false_floyd_steinberg
  else if name = "jarvis" then jarvis
  else if name = "stucki" then stucki
  else if name = "burkes" then burkes
  else if name = "sierra3" then sierra3
  else if name = "sierra2" then sierra2
  else if name = "Sierra2-4A" then sierra2_4a
  else floyd_steinberg

/-! ### dither.py: pixel-buffer primitives -/

/-- Embeds clamp_uint8, the Uint8ClampedArray-style clamp applied by
set_pixel on every write. -/
def clamp_uint8 (v : ℚ) : ℚ := if v < 0 then 0 else if v > 255 then 255 else v

/-- Embeds get_pixel_color_values: the four channel samples starting at a
byte index of the flat buffer. -/
def get_pixel_color_values (pixel_index : ℕ) (data : List ℚ) : List ℚ :=
  [data.getD pixel_index 0, data.getD (pixel_index + 1) 0,
   data.getD (pixel_index + 2) 0, data.getD (pixel_index + 3) 0]

/-- Embeds set_pixel: writes the four channels at a byte index, clamping each
value to [0, 255] on write. -/
def set_pixel (data : List ℚ) (pixel_index : ℕ) (pixel : List ℚ) : List ℚ :=
  ((((data.set pixel_index (clamp_uint8 (pixel.getD 0 0))).set (pixel_index + 1)
      (clamp_uint8 (pixel.getD 1 0))).set (pixel_index + 2)
      (clamp_uint8 (pixel.getD 2 0))).set (pixel_index + 3)
      (clamp_uint8 (pixel.getD 3 0)))

/-- Embeds get_quant_error: channelwise old minus new. -/
def get_quant_error (old_pixel new_pixel : List ℚ) : List ℚ :=
  (List.range old_pixel.length).map (fun i => old_pixel.getD i 0 - new_pixel.getD i 0)

/-- Embeds add_quant_error: channelwise pixel plus error times weight. -/
def add_quant_error (pixel quant_error : List ℚ) (diffusion_factor : ℚ) : List ℚ :=
  (List.range pixel.length).map
    (fun i => pixel.getD i 0 + quant_error.getD i 0 * diffusion_factor)

/-- Embeds random_dither_pixel_value; the three fresh uniform draws of
random_integer(0, 255) are passed explicitly. -/
def random_dither_pixel_value (pixel : List ℚ) (d0 d1 d2 : ℕ) : List ℚ :=
  (List.zipWith (fun c (d : ℕ) => if c < (d : ℚ) then (0 : ℚ) else 255)
    (pixel.take 3) [d0, d1, d2]) ++
  [if pixel.length > 3 then pixel.getD 3 0 else 255]

/-- Embeds random_dither_black_and_white_pixel_value; the single uniform draw
is passed explicitly. -/
def random_dither_black_and_white_pixel_value (pixel : List ℚ) (d : ℕ) : List ℚ :=
  let average_rgb := (pixel.getD 0 0 + pixel.getD 1 0 + pixel.getD 2 0) / 3
  if average_rgb < (d : ℚ) then [0, 0, 0, 255] else [255, 255, 255, 255]

/-- Embeds ordered_dither_pixel_value: the threshold-map factor scales the
threshold constant, added to every channel of the pixel. -/
def ordered_dither_pixel_value (pixel : List ℚ) (coordinates : ℕ × ℕ)
    (threshold_map : List (List ℕ)) (threshold : ℚ) : List ℚ :=
  let map_height := threshold_map.length
  let map_width := (threshold_map.getD 0 []).length
  let factor : ℚ := ((threshold_map.getD (coordinates.2 % map_height) []).getD
      (coordinates.1 % map_width) 0 : ℕ) / ((map_height : ℚ) * (map_width : ℚ))
  pixel.map (fun color => color + factor * threshold)

/-- Embeds pixel_xy: linear pixel index to (x, y). -/
def pixel_xy (index width : ℕ) : ℕ × ℕ := (index % width, index / width)

/-! ### dither.py: options -/

/-- The recognized options of DEFAULT_OPTIONS that the engine consults (the
serpentine, orderedDitheringType and sampling keys are never read by
dither_image). -/
structure DitherOptions where
  ditheringType : String
  errorDiffusionMatrix : String
  orderedDitheringMatrix : ℕ × ℕ
  randomDitheringType : String
  palette : PaletteSpec

/-- The documented defaults of DEFAULT_OPTIONS in dither.py. -/
def DEFAULT_OPTIONS : DitherOptions :=
  { ditheringType := "errorDiffusion"
    errorDiffusionMatrix := "floydSteinberg"
    orderedDitheringMatrix := (4, 4)
    randomDitheringType := "blackAndWhite"
    palette := .name "default" }

/-- A caller-supplied options dict: present keys override the defaults. -/
structure UserOptions where
  ditheringType : Option String := none
  errorDiffusionMatrix : Option String := none
  orderedDitheringMatrix : Option (ℕ × ℕ) := none
  randomDitheringType : Option String := none
  palette : Option PaletteSpec := none

/-- Embeds the python merge of dicts DEFAULT_OPTIONS and user options at the top of
dither_image. -/
def mergeOptions (u : UserOptions) : DitherOptions :=
  { ditheringType := u.ditheringType.getD DEFAULT_OPTIONS.ditheringType
    errorDiffusionMatrix := u.errorDiffusionMatrix.getD DEFAULT_OPTIONS.errorDiffusionMatrix
    orderedDitheringMatrix :=
      u.orderedDitheringMatrix.getD DEFAULT_OPTIONS.orderedDitheringMatrix
    randomDitheringType := u.randomDitheringType.getD DEFAULT_OPTIONS.randomDitheringType
    palette := u.palette.getD DEFAULT_OPTIONS.palette }

/-! ### dither.py: the engine -/

/-- One iteration of the error-diffusion inner loop of dither_image: compute
the target coordinates from the current byte index and the kernel offset,
skip the entry entirely when the target lies outside the image, otherwise
read the current buffer value of the target pixel, add the weighted error and
write it back through set_pixel (clamped on write). -/
def diffuseStep (width height current : ℕ) (quant_error : List ℚ)
    (d : List ℚ) (e : DiffEntry) : List ℚ :=
  let current_x : ℤ := ((current / 4) % width : ℕ)
  let current_y : ℤ := ((current / 4) / width : ℕ)
  let target_x := current_x + e.offset.1
  let target_y := current_y + e.offset.2
  if target_x < 0 ∨ (width : ℤ) ≤ target_x ∨ target_y < 0 ∨ (height : ℤ) ≤ target_y then d
  else
    let pixel_index := (target_y.toNat * width + target_x.toNat) * 4
    set_pixel d pixel_index
      (add_quant_error (get_pixel_color_values pixel_index d) quant_error e.factor)

/-- One iteration of the per-pixel loop of dither_image, at byte index
current, mirroring the sequence of (mutually exclusive) if-branches of the
source.  The running state is the buffer together with the number of random
draws consumed so far; rng gives the stream of random_integer(0, 255)
results.  A `none` result models a python exception (a None palette color
reaching distance_in_color_space). -/
def processPixel (o : DitherOptions) (width height : ℕ)
    (palette : List (Option (List ℕ))) (threshold_map : List (List ℕ))
    (rng : ℕ → ℕ) (st : List ℚ × ℕ) (current : ℕ) : Option (List ℚ × ℕ) :=
  let old_pixel := get_pixel_color_values current st.1
  (if o.ditheringType = "" ∨ o.ditheringType = "quantizationOnly" then
      (find_closest_q old_pixel palette).map (fun np => (set_pixel st.1 current np, st.2))
    else some st).bind (fun st =>
  (if o.ditheringType = "random" ∧ o.randomDitheringType = "rgb" then
      some (set_pixel st.1 current
        (random_dither_pixel_value old_pixel (rng st.2) (rng (st.2 + 1)) (rng (st.2 + 2))),
        st.2 + 3)
    else some st).bind (fun st =>
  (if o.ditheringType = "random" ∧ o.randomDitheringType = "blackAndWhite" then
      some (set_pixel st.1 current
        (random_dither_black_and_white_pixel_value old_pixel (rng st.2)), st.2 + 1)
    else some st).bind (fun st =>
  (if o.ditheringType = "ordered" then
      (find_closest_q
          (ordered_dither_pixel_value old_pixel (pixel_xy (current / 4) width)
            threshold_map (256 / 4)) palette).map
        (fun np => (set_pixel st.1 current np, st.2))
    else some st).bind (fun st =>
  if o.ditheringType = "errorDiffusion" then
    (find_closest_q old_pixel palette).bind (fun np =>
      let data1 := set_pixel st.1 current np
      let quant_error := get_quant_error old_pixel np
      some ((get_diffusion_map o.errorDiffusionMatrix).foldl
        (diffuseStep width height current quant_error) data1, st.2))
  else some st))))

/-- The raster pass of dither_image over a list of pixel numbers (the source
iterates byte indices 0, 4, 8, ...). -/
def ditherLoop (o : DitherOptions) (width height : ℕ)
    (palette : List (Option (List ℕ))) (threshold_map : List (List ℕ))
    (rng : ℕ → ℕ) : List ℕ → (List ℚ × ℕ) → Option (List ℚ × ℕ)
  | [], st => some st
  | p :: ps, st =>
    match processPixel o width height palette threshold_map rng st (4 * p) with
    | none => none
    | some st' => ditherLoop o width height palette threshold_map rng ps st'

/-- The final conversion np.clip(_, 0, 255).astype(np.uint8) applied to each
sample when the buffer is turned back into an image (astype truncates, which
on the clipped nonnegative range is the floor). -/
def to_uint8 (v : ℚ) : ℕ := ⌊max 0 (min v 255)⌋.toNat

/-- Embeds dither_image on a non-null source image: merge the options over
the defaults, resolve the palette and the threshold map, run the raster pass
over all pixels of the flat RGBA buffer, and convert the buffer back to
bytes.  `none` models a python exception escaping the call. -/
def dither_image (width height : ℕ) (data : List ℚ) (u : UserOptions)
    (rng : ℕ → ℕ) : Option (List ℕ) :=
  let o := mergeOptions u
  let color_palette := set_color_palette o.palette
  let threshold_map := create_bayer_matrix o.orderedDitheringMatrix.1 o.orderedDitheringMatrix.2
  (ditherLoop o width height color_palette threshold_map rng
      (List.range (data.length / 4)) (data, 0)).map
    (fun st => st.1.map to_uint8)

/-! ### replace_colors.py -/

/-- The exact RGB comparison of the matching loop in replace_colors. -/
def pixelMatchesColor (data : List ℕ) (i : ℕ) (color : List ℕ) : Bool :=
  decide (data.getD i 0 = color.getD 0 0) &&
  decide (data.getD (i + 1) 0 = color.getD 1 0) &&
  decide (data.getD (i + 2) 0 = color.getD 2 0)

/-- The inner scan of replace_colors: the first original color whose RGB
matches the pixel at byte index i, together with its index (the python loop
breaks at the first match). -/
def findMatchIdx (data : List ℕ) (i : ℕ) : List (List ℕ) → ℕ → Option ℕ
  | [], _ => none
  | c :: rest, k => if pixelMatchesColor data i c then some k else findMatchIdx data i rest (k + 1)

/-- One pixel of the replace_colors loop: a matched pixel is overwritten with
the positionally corresponding replacement RGB (alpha untouched) or, when the
matched index has no replacement, the whole call aborts (python returns None);
an unmatched pixel is left as is and counted. -/
def replaceStep (originals replacements : List (List ℕ)) (st : List ℕ × ℕ) (i : ℕ) :
    Option (List ℕ × ℕ) :=
  match findMatchIdx st.1 i originals 0 with
  | some k =>
    if k < replacements.length then
      let c := replacements.getD k []
      some (((st.1.set i (c.getD 0 0)).set (i + 1) (c.getD 1 0)).set (i + 2) (c.getD 2 0), st.2)
    else none
  | none => some (st.1, st.2 + 1)

/-- The raster pass of replace_colors over a list of pixel numbers. -/
def replaceLoop (originals replacements : List (List ℕ)) :
    List ℕ → (List ℕ × ℕ) → Option (List ℕ × ℕ)
  | [], st => some st
  | p :: ps, st =>
    match replaceStep originals replacements st (4 * p) with
    | none => none
    | some st' => replaceLoop originals replacements ps st'

/-- Embeds replace_colors on the uint8 RGBA buffer of a non-null image.  The
color arguments are the hex lists already converted to RGB triples (the
original_colors_rgb and replace_colors_rgb lists of the source).  The result
carries the final buffer and the count of pixels that matched no original
color; `none` models the early python return None when a matched index has no
replacement. -/
def replace_colors (data : List ℕ) (originals replacements : List (List ℕ)) :
    Option (List ℕ × ℕ) :=
  replaceLoop originals replacements (List.range (data.length / 4)) (data, 0)

/-! ## Helper lemmas on list reads and writes -/

theorem getD_set_ne {α} (l : List α) (i j : ℕ) (a d : α) (h : i ≠ j) :
    (l.set i a).getD j d = l.getD j d := by
  simp [List.getD, List.getElem?_set_ne h]

theorem getD_set_self {α} (l : List α) (i : ℕ) (a d : α) (h : i < l.length) :
    (l.set i a).getD i d = a := by
  simp [List.getD, List.getElem?_set_self, h]

theorem getD_map {α β} (f : α → β) (l : List α) (i : ℕ) (d : β) (d2 : α) (h : i < l.length) :
    (l.map f).getD i d = f (l.getD i d2) := by
  simp [List.getD, List.getElem?_eq_getElem, h]

theorem length_set_pixel (data : List ℚ) (i : ℕ) (px : List ℚ) :
    (set_pixel data i px).length = data.length := by
  simp [set_pixel]

theorem getD_set_pixel_lt (data : List ℚ) (i j : ℕ) (px : List ℚ) (h : j < i) :
    (set_pixel data i px).getD j 0 = data.getD j 0 := by
  unfold set_pixel
  rw [getD_set_ne _ _ _ _ _ (by omega), getD_set_ne _ _ _ _ _ (by omega),
    getD_set_ne _ _ _ _ _ (by omega), getD_set_ne _ _ _ _ _ (by omega)]

theorem getD_set_pixel_at (data : List ℚ) (i : ℕ) (px : List ℚ) (hlen : i + 3 < data.length) :
    ∀ c, c < 4 →
      (set_pixel data i px).getD (i + c) 0 = clamp_uint8 (px.getD c 0) := by
  intro c hc
  unfold set_pixel
  interval_cases c
  · rw [getD_set_ne _ _ _ _ _ (by omega), getD_set_ne _ _ _ _ _ (by omega),
      getD_set_ne _ _ _ _ _ (by omega)]
    simpa using getD_set_self data i _ 0 (by omega)
  · rw [getD_set_ne _ _ _ _ _ (by omega), getD_set_ne _ _ _ _ _ (by omega)]
    exact getD_set_self _ (i + 1) _ 0 (by simp; omega)
  · rw [getD_set_ne _ _ _ _ _ (by omega)]
    exact getD_set_self _ (i + 2) _ 0 (by simp; omega)
  · exact getD_set_self _ (i + 3) _ 0 (by simp; omega)

theorem getD_range (n c : ℕ) (hc : c < n) : (List.range n).getD c 0 = c := by
  simp [List.getD, List.getElem?_range, hc]

theorem add_quant_error_getD (px qe : List ℚ) (f : ℚ) (c : ℕ) (hc : c < px.length) :
    (add_quant_error px qe f).getD c 0 = px.getD c 0 + qe.getD c 0 * f := by
  unfold add_quant_error
  rw [getD_map _ _ _ _ 0 (by simpa using hc), getD_range _ _ hc]

theorem get_pixel_getD (i : ℕ) (d : List ℚ) :
    ∀ c, c < 4 → (get_pixel_color_values i d).getD c 0 = d.getD (i + c) 0 := by
  intro c hc
  interval_cases c <;> simp [get_pixel_color_values]

theorem bind_some_id {α} (x : Option α) : x.bind (fun a => some a) = x := by
  cases x <;> rfl

theorem to_uint8_natCast (n : ℕ) (h : n ≤ 255) : to_uint8 (n : ℚ) = n := by
  unfold to_uint8
  rw [min_eq_left (by exact_mod_cast h), max_eq_right (by positivity), Int.floor_natCast]
  simp

/-! ## Helper lemmas on the palette-matcher selection loop -/

theorem pick_foldl_spec (l : List (ℚ × List ℕ)) (b r : ℚ × List ℕ)
    (hr : l.foldl (fun best entry => if entry.1 < best.1 then entry else best) b = r) :
    (∀ e ∈ l, r.1 ≤ e.1) ∧ r.1 ≤ b.1 ∧
    (r = b ∨ ∃ l1 l2, l = l1 ++ r :: l2 ∧ r.1 < b.1 ∧ ∀ e ∈ l1, r.1 < e.1) := by
  induction l generalizing b with
  | nil => simp at hr; simp [hr]
  | cons e rest ih =>
    rw [List.foldl_cons] at hr
    by_cases he : e.1 < b.1
    · rw [if_pos he] at hr
      obtain ⟨h1, h2, h3⟩ := ih e hr
      refine ⟨?_, le_of_lt (lt_of_le_of_lt h2 he), ?_⟩
      · intro x hx
        rcases List.mem_cons.mp hx with rfl | hx
        · exact h2
        · exact h1 x hx
      · rcases h3 with rfl | ⟨l1, l2, heq, hlt, hall⟩
        · exact Or.inr ⟨[], rest, by simp, he, by simp⟩
        · refine Or.inr ⟨e :: l1, l2, by simp [heq], lt_trans hlt he, ?_⟩
          intro x hx
          rcases List.mem_cons.mp hx with rfl | hx
          · exact hlt
          · exact hall x hx
    · rw [if_neg he] at hr
      push_neg at he
      obtain ⟨h1, h2, h3⟩ := ih b hr
      refine ⟨?_, h2, ?_⟩
      · intro x hx
        rcases List.mem_cons.mp hx with rfl | hx
        · exact le_trans h2 he
        · exact h1 x hx
      · rcases h3 with hr2 | ⟨l1, l2, heq, hlt, hall⟩
        · exact Or.inl hr2
        · refine Or.inr ⟨e :: l1, l2, by simp [heq], hlt, ?_⟩
          intro x hx
          rcases List.mem_cons.mp hx with rfl | hx
          · exact lt_of_lt_of_le hlt he
          · exact hall x hx

theorem map_eq_append_cons {α β} (f : α → β) (l : List α) (m1 m2 : List β) (x : β)
    (h : l.map f = m1 ++ x :: m2) :
    ∃ l1 a l2, l = l1 ++ a :: l2 ∧ m1 = l1.map f ∧ x = f a ∧ m2 = l2.map f := by
  induction m1 generalizing l with
  | nil =>
    cases l with
    | nil => simp at h
    | cons a t =>
      simp only [List.map_cons, List.nil_append, List.cons.injEq] at h
      exact ⟨[], a, t, by simp, by simp, h.1.symm, h.2.symm⟩
  | cons y m1t ih =>
    cases l with
    | nil => simp at h
    | cons a t =>
      simp only [List.map_cons, List.cons_append, List.cons.injEq] at h
      obtain ⟨l1, b, l2, rfl, rfl, rfl, rfl⟩ := ih t h.2
      exact ⟨a :: l1, b, l2, by simp, by simp [h.1], rfl, rfl⟩

theorem colors_with_distance_somes (pixel : List ℚ) (l : List (List ℕ)) :
    colors_with_distance pixel (l.map some) =
      some (l.map (fun c => (distance_sq c pixel, c))) := by
  induction l with
  | nil => rfl
  | cons c t ih => simp [colors_with_distance, ih]

theorem colors_with_distance_none (pixel : List ℚ) (l : List (Option (List ℕ)))
    (h : none ∈ l) : colors_with_distance pixel l = none := by
  induction l with
  | nil => simp at h
  | cons oc t ih =>
    cases oc with
    | none => rfl
    | some c =>
      rcases List.mem_cons.mp h with h0 | h0
      · exact absurd h0.symm (Option.some_ne_none c)
      · simp [colors_with_distance, ih h0]

theorem distance_sq_nonneg (c : List ℕ) (p : List ℚ) : 0 ≤ distance_sq c p := by
  unfold distance_sq
  have h0 := mul_self_nonneg ((c.getD 0 0 : ℚ) - p.getD 0 0)
  have h1 := mul_self_nonneg ((c.getD 1 0 : ℚ) - p.getD 1 0)
  have h2 := mul_self_nonneg ((c.getD 2 0 : ℚ) - p.getD 2 0)
  linarith

/-- On a palette of well-formed colors (mapped through `some`),
find_closest_palette_color returns the first entry of minimum squared RGB
distance, with 255 appended when the entry has fewer than 4 channels:
everything strictly before the winner has strictly larger distance, and the
winner's distance is a lower bound over the whole palette. -/
theorem find_closest_spec (pixel : List ℚ) (palette : List (List ℕ)) (hne : palette ≠ []) :
    ∃ pre win post, palette = pre ++ win :: post ∧
      find_closest_palette_color pixel (palette.map some) =
        some (if win.length < 4 then win ++ [255] else win) ∧
      (∀ c ∈ palette, distance_sq win pixel ≤ distance_sq c pixel) ∧
      (∀ c ∈ pre, distance_sq win pixel < distance_sq c pixel) := by
  obtain ⟨p0, rest, rfl⟩ := List.exists_cons_of_ne_nil hne
  obtain ⟨r, hrdef⟩ : ∃ r, (rest.map (fun c => (distance_sq c pixel, c))).foldl
      (fun best entry => if entry.1 < best.1 then entry else best)
      (distance_sq p0 pixel, p0) = r := ⟨_, rfl⟩
  have hfc : find_closest_palette_color pixel ((p0 :: rest).map some) =
      some (if r.2.length < 4 then r.2 ++ [255] else r.2) := by
    rw [find_closest_palette_color, colors_with_distance_somes pixel (p0 :: rest)]
    simp only [List.map_cons, Option.bind_eq_bind, Option.some_bind, pickClosest, hrdef]
    rfl
  obtain ⟨h1, h2, h3⟩ := pick_foldl_spec (rest.map (fun c => (distance_sq c pixel, c)))
    (distance_sq p0 pixel, p0) r hrdef
  rcases h3 with hr | ⟨l1, l2, heq, hlt, hall⟩
  · refine ⟨[], p0, rest, by simp, ?_, ?_, by simp⟩
    · rw [hfc, hr]
    · intro c hc
      rcases List.mem_cons.mp hc with rfl | hc
      · exact le_refl _
      · have := h1 _ (List.mem_map_of_mem (fun c => (distance_sq c pixel, c)) hc)
        rw [hr] at this
        exact this
  · obtain ⟨r1, a, r2, rfl, hl1, hfa, hl2⟩ :=
      map_eq_append_cons (fun c => (distance_sq c pixel, c)) rest l1 l2 r heq
    have hr1 : r.1 = distance_sq a pixel := by rw [hfa]
    have hr2 : r.2 = a := by rw [hfa]
    refine ⟨p0 :: r1, a, r2, by simp, ?_, ?_, ?_⟩
    · rw [hfc, hr2]
    · intro c hc
      rcases List.mem_cons.mp hc with rfl | hc
      · rw [← hr1]
        exact le_of_lt hlt
      · have := h1 _ (List.mem_map_of_mem (fun c => (distance_sq c pixel, c)) hc)
        rw [hr1] at this
        exact this
    · intro c hc
      rcases List.mem_cons.mp hc with rfl | hc
      · rw [← hr1]
        exact hlt
      · have := hall ((fun c => (distance_sq c pixel, c)) c)
          (by rw [hl1]; exact List.mem_map_of_mem (fun c => (distance_sq c pixel, c)) hc)
        rw [hr1] at this
        exact this

/-! ## C5: closest-color contract -/

/-- C5: for every pixel and non-empty palette of well-formed colors,
find_closest_palette_color returns the palette entry of minimum Euclidean
RGB distance (stated through Real.sqrt of the squared distance the source
passes to math.sqrt), ties resolving to the lowest palette index (every
entry strictly before the winner has strictly greater distance); the metric
ignores channels beyond R,G,B (first conjunct), and the returned value has
alpha 255 appended when the winning entry has 3 channels and is passed
through unchanged when it has 4 or more. -/
theorem find_closest_color_contract (pixel : List ℚ) (palette : List (List ℕ))
    (hne : palette ≠ []) :
    (∀ (c : List ℕ) (p q : List ℚ), p.getD 0 0 = q.getD 0 0 → p.getD 1 0 = q.getD 1 0 →
      p.getD 2 0 = q.getD 2 0 → distance_sq c p = distance_sq c q) ∧
    ∃ pre win post, palette = pre ++ win :: post ∧
      (∀ c ∈ palette, Real.sqrt ((distance_sq win pixel : ℚ) : ℝ) ≤
        Real.sqrt ((distance_sq c pixel : ℚ) : ℝ)) ∧
      (∀ c ∈ pre, Real.sqrt ((distance_sq win pixel : ℚ) : ℝ) <
        Real.sqrt ((distance_sq c pixel : ℚ) : ℝ)) ∧
      (win.length = 3 →
        find_closest_palette_color pixel (palette.map some) = some (win ++ [255])) ∧
      (4 ≤ win.length →
        find_closest_palette_color pixel (palette.map some) = some win) := by
  refine ⟨?_, ?_⟩
  · intro c p q h0 h1 h2
    unfold distance_sq
    rw [h0, h1, h2]
  · obtain ⟨pre, win, post, hsplit, heq, hmin, hstrict⟩ := find_closest_spec pixel palette hne
    refine ⟨pre, win, post, hsplit, ?_, ?_, ?_, ?_⟩
    · intro c hc
      exact Real.sqrt_le_sqrt (by exact_mod_cast hmin c hc)
    · intro c hc
      exact Real.sqrt_lt_sqrt (by exact_mod_cast distance_sq_nonneg win pixel)
        (by exact_mod_cast hstrict c hc)
    · intro hw
      rw [heq, if_pos (by omega)]
    · intro hw
      rw [heq, if_neg (by omega)]

/-- C5 witness: the contract evaluated for pixel (100, 0, 0, 255) against the
palette of black and white. -/
theorem find_closest_color_contract_witness :
    (([[0, 0, 0], [255, 255, 255]] : List (List ℕ)) ≠ []) ∧
    ((∀ (c : List ℕ) (p q : List ℚ), p.getD 0 0 = q.getD 0 0 → p.getD 1 0 = q.getD 1 0 →
      p.getD 2 0 = q.getD 2 0 → distance_sq c p = distance_sq c q) ∧
    ∃ pre win post, ([[0, 0, 0], [255, 255, 255]] : List (List ℕ)) = pre ++ win :: post ∧
      (∀ c ∈ ([[0, 0, 0], [255, 255, 255]] : List (List ℕ)),
        Real.sqrt ((distance_sq win [100, 0, 0, 255] : ℚ) : ℝ) ≤
        Real.sqrt ((distance_sq c [100, 0, 0, 255] : ℚ) : ℝ)) ∧
      (∀ c ∈ pre, Real.sqrt ((distance_sq win [100, 0, 0, 255] : ℚ) : ℝ) <
        Real.sqrt ((distance_sq c [100, 0, 0, 255] : ℚ) : ℝ)) ∧
      (win.length = 3 →
        find_closest_palette_color [100, 0, 0, 255]
          (([[0, 0, 0], [255, 255, 255]] : List (List ℕ)).map some) = some (win ++ [255])) ∧
      (4 ≤ win.length →
        find_closest_palette_color [100, 0, 0, 255]
          (([[0, 0, 0], [255, 255, 255]] : List (List ℕ)).map some) = some win)) :=
  ⟨by decide, find_closest_color_contract [100, 0, 0, 255] [[0, 0, 0], [255, 255, 255]]
    (by decide)⟩

/-! ## C2: Bayer matrix completeness -/

/-- C2: the claim that create_bayer_matrix contains each integer in
0..(width*height - 1) exactly once for all 1 ≤ width, height ≤ 8 fails on the
code: the 8x8 base matrix literal contains 32 twice (rows 1 and 3) and does
not contain 23, so the verbatim 8x8 fast path is not a permutation of 0..63;
the duplicated 32 also makes the re-indexed sizes with width in 4..7 and
height 8 miss one value of the range, shown here for 4x8.  The spec is
clearly the intent (the canonical Bayer matrix has 23 where the literal has
its second 32, and the code itself documents the re-indexing as producing
sequential values), so this is a code bug. -/
theorem bayer_matrix_not_complete :
    create_bayer_matrix 8 8 = big_matrix ∧
    (create_bayer_matrix 8 8).flatten.count 32 = 2 ∧
    (create_bayer_matrix 8 8).flatten.count 23 = 0 ∧
    ¬ (∀ v < 32, (create_bayer_matrix 4 8).flatten.count v = 1) :=
  ⟨by decide, by decide, by decide, by decide⟩

/-- C2 context: completeness does hold for the sizes whose sample avoids the
duplicated 32, e.g. every square size 1 ≤ n ≤ 7 comes out as a permutation
of 0..(n*n - 1). -/
theorem bayer_matrix_complete_on_squares :
    ∀ n, 1 ≤ n → n ≤ 7 → ∀ v < n * n, (create_bayer_matrix n n).flatten.count v = 1 := by
  decide

/-! ## C7: palette-name resolution -/

/-- C7 counterexample: dither_image resolves palette names through
set_color_palette, which looks the name up without case folding, so the
case variant "Gameboy" of the registered name "gameboy" does not resolve to
the gameboy palette: it falls back to the default palette instead. -/
theorem set_color_palette_case_sensitive :
    set_color_palette (.name "Gameboy") = set_color_palette (.name "default") ∧
    set_color_palette (.name "Gameboy") ≠ set_color_palette (.name "gameboy") :=
  ⟨by decide, by decide⟩

/-- C7 amended: the palette resolution used by dither_image is a
case-sensitive exact lookup; any name that is not an exact key of the palette
table, including case variants of registered names, silently falls back to
the default palette.  Case-insensitive resolution exists only in
get_default_palettes of __init__.py, which dither_image does not call. -/
theorem palette_name_fallback (s : String) (h : PALETTES.lookup s = none) :
    set_color_palette (.name s) = set_color_palette (.name "default") ∧
    get_default_palettes "GAMEBOY" = get_default_palettes "gameboy" := by
  constructor
  · simp only [set_color_palette, palettesGet, h]
    decide
  · decide

/-- C7 amended, witness at the concrete case variant "Gameboy". -/
theorem palette_name_fallback_witness :
    PALETTES.lookup "Gameboy" = none ∧
    (set_color_palette (.name "Gameboy") = set_color_palette (.name "default") ∧
      get_default_palettes "GAMEBOY" = get_default_palettes "gameboy") :=
  ⟨by decide, palette_name_fallback "Gameboy" (by decide)⟩

/-! ## C4: error-diffusion boundary and clamp semantics -/

/-- C4: in the error-diffusion inner loop of dither_image, a kernel entry
whose target (x + dx, y + dy) lies outside [0, width) x [0, height) is
skipped entirely (the buffer is returned unchanged: no wraparound, no
coordinate clamping, no redistribution); an in-bounds entry adds
error[c] * weight to each channel of the target pixel's current buffer value
and the result is clamped to [0, 255] on the write itself; and the loop is a
left fold of diffuseStep over the kernel entries, so a later deposit onto the
same pixel reads the already-clamped buffer value written by an earlier one. -/
theorem error_diffusion_boundary_clamp (w h cur : ℕ) (qe d : List ℚ) (e : DiffEntry)
    (tx ty : ℤ)
    (htx : tx = (((cur / 4) % w : ℕ) : ℤ) + e.offset.1)
    (hty : ty = (((cur / 4) / w : ℕ) : ℤ) + e.offset.2) :
    ((tx < 0 ∨ (w : ℤ) ≤ tx ∨ ty < 0 ∨ (h : ℤ) ≤ ty) → diffuseStep w h cur qe d e = d) ∧
    (¬(tx < 0 ∨ (w : ℤ) ≤ tx ∨ ty < 0 ∨ (h : ℤ) ≤ ty) →
      (ty.toNat * w + tx.toNat) * 4 + 3 < d.length →
      ∀ c, c < 4 →
        (diffuseStep w h cur qe d e).getD ((ty.toNat * w + tx.toNat) * 4 + c) 0 =
          clamp_uint8 (d.getD ((ty.toNat * w + tx.toNat) * 4 + c) 0 + qe.getD c 0 * e.factor)) ∧
    (∀ (l1 l2 : List DiffEntry) (d0 : List ℚ),
      (l1 ++ l2).foldl (diffuseStep w h cur qe) d0 =
        l2.foldl (diffuseStep w h cur qe) (l1.foldl (diffuseStep w h cur qe) d0)) := by
  subst htx hty
  refine ⟨?_, ?_, ?_⟩
  · intro hout
    unfold diffuseStep
    rw [if_pos hout]
  · intro hin hlen c hc
    unfold diffuseStep
    rw [if_neg hin]
    rw [getD_set_pixel_at _ _ _ hlen c hc]
    rw [add_quant_error_getD _ _ _ c (by simp [get_pixel_color_values]; omega)]
    rw [get_pixel_getD _ _ c hc]
  · intro l1 l2 d0
    exact List.foldl_append _ _ _ _

/-- C4 witness: the Floyd-Steinberg right-neighbor entry deposited from pixel
(0, 0) of a 2x2 image. -/
theorem error_diffusion_boundary_clamp_witness :
    (¬((1 : ℤ) < 0 ∨ (2 : ℤ) ≤ 1 ∨ (0 : ℤ) < 0 ∨ (2 : ℤ) ≤ 0)) ∧
    (diffuseStep 2 2 0 [16, 16, 16, 0] [0, 0, 0, 0, 8, 16, 32, 0] ⟨(1, 0), 7/16⟩).getD 4 0 =
      clamp_uint8 (([0, 0, 0, 0, 8, 16, 32, 0] : List ℚ).getD 4 0 +
        ([16, 16, 16, 0] : List ℚ).getD 0 0 * (7/16)) := by
  refine ⟨by decide, ?_⟩
  have hmain := (error_diffusion_boundary_clamp 2 2 0 [16, 16, 16, 0]
    [0, 0, 0, 0, 8, 16, 32, 0] ⟨(1, 0), 7/16⟩ 1 0 (by decide) (by decide)).2.1
    (by decide) (by norm_num) 0 (by norm_num)
  simpa using hmain

/-! ## C3: unrecognized ditheringType -/

/-- No branch of the per-pixel dispatch fires for a ditheringType outside the
five recognized strings, so the pixel state passes through unchanged. -/
theorem processPixel_unrecognized (o : DitherOptions) (w h : ℕ)
    (pal : List (Option (List ℕ))) (tm : List (List ℕ)) (rng : ℕ → ℕ)
    (st : List ℚ × ℕ) (cur : ℕ)
    (htype : o.ditheringType ∉
      (["", "quantizationOnly", "random", "ordered", "errorDiffusion"] : List String)) :
    processPixel o w h pal tm rng st cur = some st := by
  simp only [List.mem_cons, List.not_mem_nil, not_or, or_false] at htype
  obtain ⟨hn1, hn2, hn3, hn4, hn5⟩ := htype
  simp only [processPixel,
    if_neg (by tauto : ¬(o.ditheringType = "" ∨ o.ditheringType = "quantizationOnly")),
    if_neg (by tauto : ¬(o.ditheringType = "random" ∧ o.randomDitheringType = "rgb")),
    if_neg (by tauto : ¬(o.ditheringType = "random" ∧ o.randomDitheringType = "blackAndWhite")),
    if_neg hn4, if_neg hn5, Option.some_bind]

theorem ditherLoop_unrecognized (o : DitherOptions) (w h : ℕ)
    (pal : List (Option (List ℕ))) (tm : List (List ℕ)) (rng : ℕ → ℕ)
    (l : List ℕ) (st : List ℚ × ℕ)
    (htype : o.ditheringType ∉
      (["", "quantizationOnly", "random", "ordered", "errorDiffusion"] : List String)) :
    ditherLoop o w h pal tm rng l st = some st := by
  induction l with
  | nil => rfl
  | cons p ps ih =>
    rw [ditherLoop, processPixel_unrecognized o w h pal tm rng st (4 * p) htype]
    exact ih

/-- C3 counterexample: on the 1x1 image (10, 10, 10, 255), the unrecognized
ditheringType "zzz" returns the input pixel unchanged, while the documented
default for the option (errorDiffusion, the merge of empty user options)
quantizes it to black, so the unrecognized value is not substituted with the
default. -/
theorem unrecognized_type_not_default :
    dither_image 1 1 [10, 10, 10, 255] { ditheringType := some "zzz" } (fun _ => 0) =
      some [10, 10, 10, 255] ∧
    dither_image 1 1 [10, 10, 10, 255] {} (fun _ => 0) = some [0, 0, 0, 255] ∧
    dither_image 1 1 [10, 10, 10, 255] { ditheringType := some "zzz" } (fun _ => 0) ≠
      dither_image 1 1 [10, 10, 10, 255] {} (fun _ => 0) := by
  have h10 : to_uint8 10 = 10 := by
    rw [show (10 : ℚ) = ((10 : ℕ) : ℚ) by norm_num, to_uint8_natCast 10 (by norm_num)]
  have h255 : to_uint8 255 = 255 := by
    rw [show (255 : ℚ) = ((255 : ℕ) : ℚ) by norm_num, to_uint8_natCast 255 (by norm_num)]
  have heq1 : dither_image 1 1 [10, 10, 10, 255] { ditheringType := some "zzz" }
      (fun _ => 0) = some [10, 10, 10, 255] := by
    unfold dither_image
    simp only
    rw [ditherLoop_unrecognized _ _ _ _ _ _ _ _ (by decide)]
    simp [h10, h255]
  have hpal : set_color_palette (.name "default") = [some [0, 0, 0], some [255, 255, 255]] := by
    decide
  have heq2 : dither_image 1 1 [10, 10, 10, 255] {} (fun _ => 0) = some [0, 0, 0, 255] := by
    unfold dither_image
    simp only [mergeOptions, DEFAULT_OPTIONS, Option.getD_none, hpal]
    norm_num +decide [ditherLoop, processPixel, find_closest_q, find_closest_palette_color,
      colors_with_distance, pickClosest, distance_sq, get_pixel_color_values, set_pixel,
      clamp_uint8, get_quant_error, add_quant_error, diffuseStep, get_diffusion_map,
      floyd_steinberg, to_uint8, List.getD]
  refine ⟨heq1, heq2, ?_⟩
  rw [heq1, heq2]
  decide

/-- C3 amended: only an empty ditheringType falls back (to quantization-only);
a non-empty unrecognized value is silently ignored rather than substituted by
the documented default: no strategy runs and dither_image returns the input
buffer unchanged up to the final byte conversion. -/
theorem unrecognized_type_passthrough (w h : ℕ) (data : List ℚ) (u : UserOptions)
    (rng : ℕ → ℕ)
    (htype : (mergeOptions u).ditheringType ∉
      (["", "quantizationOnly", "random", "ordered", "errorDiffusion"] : List String)) :
    dither_image w h data u rng = some (data.map to_uint8) := by
  unfold dither_image
  simp only
  rw [ditherLoop_unrecognized _ _ _ _ _ _ _ _ htype]
  rfl

/-- C3 amended, witness at ditheringType "zzz" on a 1x1 image. -/
theorem unrecognized_type_passthrough_witness :
    (mergeOptions { ditheringType := some "zzz" }).ditheringType ∉
      (["", "quantizationOnly", "random", "ordered", "errorDiffusion"] : List String) ∧
    dither_image 1 1 [10, 10, 10, 255] { ditheringType := some "zzz" } (fun _ => 0) =
      some (([10, 10, 10, 255] : List ℚ).map to_uint8) :=
  ⟨by decide, unrecognized_type_passthrough 1 1 [10, 10, 10, 255]
    { ditheringType := some "zzz" } (fun _ => 0) (by decide)⟩

/-! ## C10: malformed explicit palette entries -/

/-- Computing distances over a palette containing a failed hex parse (python
None) raises, so the matcher yields no value. -/
theorem find_closest_q_bad (px : List ℚ) (pal : List (Option (List ℕ))) (hbad : none ∈ pal) :
    find_closest_q px pal = none := by
  unfold find_closest_q find_closest_palette_color
  rw [colors_with_distance_none _ _ hbad]
  rfl

/-- In every mode that consults the palette, a pixel step over a palette with
a failed hex parse raises. -/
theorem processPixel_bad_palette (o : DitherOptions) (w h : ℕ)
    (pal : List (Option (List ℕ))) (tm : List (List ℕ)) (rng : ℕ → ℕ)
    (st : List ℚ × ℕ) (cur : ℕ)
    (htype : o.ditheringType ∈
      (["", "quantizationOnly", "ordered", "errorDiffusion"] : List String))
    (hbad : none ∈ pal) :
    processPixel o w h pal tm rng st cur = none := by
  simp only [List.mem_cons, List.not_mem_nil, or_false] at htype
  rcases htype with h | h | h | h
  · simp only [processPixel, if_pos (Or.inl h), find_closest_q_bad _ _ hbad,
      Option.map_none', Option.none_bind]
  · simp only [processPixel, if_pos (Or.inr h), find_closest_q_bad _ _ hbad,
      Option.map_none', Option.none_bind]
  · have h1 : ¬(o.ditheringType = "" ∨ o.ditheringType = "quantizationOnly") := by
      rw [h]; decide
    have h2 : ¬(o.ditheringType = "random" ∧ o.randomDitheringType = "rgb") := by
      rw [h]; simp
    have h3 : ¬(o.ditheringType = "random" ∧ o.randomDitheringType = "blackAndWhite") := by
      rw [h]; simp
    simp only [processPixel, if_neg h1, if_neg h2, if_neg h3, if_pos h,
      Option.some_bind, find_closest_q_bad _ _ hbad, Option.map_none', Option.none_bind]
  · have h1 : ¬(o.ditheringType = "" ∨ o.ditheringType = "quantizationOnly") := by
      rw [h]; decide
    have h2 : ¬(o.ditheringType = "random" ∧ o.randomDitheringType = "rgb") := by
      rw [h]; simp
    have h3 : ¬(o.ditheringType = "random" ∧ o.randomDitheringType = "blackAndWhite") := by
      rw [h]; simp
    have h4 : ¬(o.ditheringType = "ordered") := by rw [h]; decide
    simp only [processPixel, if_neg h1, if_neg h2, if_neg h3, if_neg h4, if_pos h,
      Option.some_bind, find_closest_q_bad _ _ hbad, Option.none_bind]

/-- C10 counterexample: with ditheringType random the palette is never
consulted, so dither_image on a palette containing the rejected entry "xyz"
still returns an image, refuting the claim for arbitrary configurations. -/
theorem bad_palette_random_returns_image :
    hex_to_rgb "xyz" = none ∧
    none ∈ set_color_palette (.colors ["xyz"]) ∧
    dither_image 1 1 [100, 100, 100, 255]
      { ditheringType := some "random", palette := some (.colors ["xyz"]) } (fun _ => 0) =
      some [255, 255, 255, 255] := by
  refine ⟨by decide, by decide, ?_⟩
  unfold dither_image
  simp only [mergeOptions, DEFAULT_OPTIONS, Option.getD_none, Option.getD_some]
  norm_num +decide [ditherLoop, processPixel, set_pixel, clamp_uint8,
    random_dither_black_and_white_pixel_value, get_pixel_color_values, to_uint8, List.getD]

/-- C10 amended: for every configuration whose resolved ditheringType
consults the palette (empty, quantizationOnly, ordered or errorDiffusion —
in particular the default), an image with at least one pixel and an explicit
palette list with at least one entry the hex parser rejects make dither_image
raise at the first distance computation: no image is returned and no fallback
to a default palette happens.  Random mode is the exception shown in the
counterexample. -/
theorem dither_image_bad_palette (w h : ℕ) (data : List ℚ) (u : UserOptions) (rng : ℕ → ℕ)
    (htype : (mergeOptions u).ditheringType ∈
      (["", "quantizationOnly", "ordered", "errorDiffusion"] : List String))
    (hbad : none ∈ set_color_palette (mergeOptions u).palette)
    (hpix : 1 ≤ data.length / 4) :
    dither_image w h data u rng = none := by
  unfold dither_image
  simp only
  obtain ⟨k, hk⟩ : ∃ k, data.length / 4 = k + 1 :=
    ⟨data.length / 4 - 1, by omega⟩
  rw [hk, List.range_succ_eq_map, ditherLoop,
    processPixel_bad_palette _ _ _ _ _ _ _ _ htype hbad]
  rfl

/-- C10 amended, witness: the default configuration with explicit palette
entry "xyz" on a 1x1 image. -/
theorem dither_image_bad_palette_witness :
    (mergeOptions { palette := some (.colors ["xyz"]) }).ditheringType ∈
      (["", "quantizationOnly", "ordered", "errorDiffusion"] : List String) ∧
    none ∈ set_color_palette (mergeOptions { palette := some (.colors ["xyz"]) }).palette ∧
    1 ≤ ([100, 100, 100, 255] : List ℚ).length / 4 ∧
    dither_image 1 1 [100, 100, 100, 255] { palette := some (.colors ["xyz"]) }
      (fun _ => 0) = none :=
  ⟨by decide, by decide, by decide,
    dither_image_bad_palette 1 1 [100, 100, 100, 255] { palette := some (.colors ["xyz"]) }
      (fun _ => 0) (by decide) (by decide) (by decide)⟩

/-! ## C8: direction of error deposits -/

/-- Every entry of every catalog kernel (and of the fallback) points forward
in raster order: strictly below the current row, or in the current row
strictly to the right. -/
theorem get_diffusion_map_forward (name : String) :
    ∀ e ∈ get_diffusion_map name, 0 < e.offset.2 ∨ (e.offset.2 = 0 ∧ 0 < e.offset.1) := by
  unfold get_diffusion_map
  repeat' split
  all_goals decide

theorem forward_target_lt (wd : ℕ) (x y : ℕ) (dx dy : ℤ) (hx : x < wd)
    (hfwd : 0 < dy ∨ (dy = 0 ∧ 0 < dx))
    (h0 : 0 ≤ (x : ℤ) + dx) (h1 : (x : ℤ) + dx < wd)
    (h2 : 0 ≤ (y : ℤ) + dy) :
    y * wd + x < ((y : ℤ) + dy).toNat * wd + ((x : ℤ) + dx).toNat := by
  rcases hfwd with hdy | ⟨hdy, hdx⟩
  · have hy : y + 1 ≤ ((y : ℤ) + dy).toNat := by omega
    calc y * wd + x < y * wd + wd := by omega
      _ = (y + 1) * wd := by ring
      _ ≤ ((y : ℤ) + dy).toNat * wd := Nat.mul_le_mul_right wd hy
      _ ≤ ((y : ℤ) + dy).toNat * wd + ((x : ℤ) + dx).toNat := Nat.le_add_right _ _
  · have hyy : ((y : ℤ) + dy).toNat = y := by omega
    have hxx : x < ((x : ℤ) + dx).toNat := by omega
    rw [hyy]
    exact Nat.add_lt_add_left hxx _

/-- The statement of claim C8 over the embedding: some catalog kernel, image
size and pixel position admit an in-bounds deposit whose target pixel index
(as computed by diffuseStep) is strictly earlier in row-major order than the
pixel being quantized. -/
def claim_C8 : Prop :=
  ∃ (name : String) (wd ht x y : ℕ) (e : DiffEntry), e ∈ get_diffusion_map name ∧
    x < wd ∧ y < ht ∧
    0 ≤ (x : ℤ) + e.offset.1 ∧ (x : ℤ) + e.offset.1 < wd ∧
    0 ≤ (y : ℤ) + e.offset.2 ∧ (y : ℤ) + e.offset.2 < ht ∧
    ((y : ℤ) + e.offset.2).toNat * wd + ((x : ℤ) + e.offset.1).toNat < y * wd + x

/-- C8 counterexample: no in-bounds deposit of any catalog kernel ever
targets a pixel strictly earlier in row-major order than the pixel being
quantized, refuting the claim that already-visited pixels receive error. -/
theorem error_deposits_never_earlier : ¬ claim_C8 := by
  rintro ⟨name, wd, ht, x, y, e, hmem, hx, hy, h0, h1, h2, h3, hlt⟩
  have := forward_target_lt wd x y e.offset.1 e.offset.2 hx
    (get_diffusion_map_forward name e hmem) h0 h1 h2
  omega

/-- C8 amended: during an error-diffusion pass every in-bounds kernel deposit
targets a pixel strictly later in row-major order than the pixel currently
being quantized, so error reaches only not-yet-visited pixels of the current
buffer. -/
theorem error_deposits_forward (name : String) (e : DiffEntry)
    (he : e ∈ get_diffusion_map name) (wd x y : ℕ) (hx : x < wd)
    (h0 : 0 ≤ (x : ℤ) + e.offset.1) (h1 : (x : ℤ) + e.offset.1 < wd)
    (h2 : 0 ≤ (y : ℤ) + e.offset.2) :
    y * wd + x < ((y : ℤ) + e.offset.2).toNat * wd + ((x : ℤ) + e.offset.1).toNat :=
  forward_target_lt wd x y e.offset.1 e.offset.2 hx
    (get_diffusion_map_forward name e he) h0 h1 h2

/-- C8 amended, witness: the Floyd-Steinberg right-neighbor deposit from
pixel (0, 0) of a 2-wide image lands at pixel index 1, after pixel index 0. -/
theorem error_deposits_forward_witness :
    (⟨(1, 0), 7/16⟩ : DiffEntry) ∈ get_diffusion_map "floydSteinberg" ∧
    (0 : ℕ) < 2 ∧ (0 : ℤ) ≤ (0 : ℤ) + 1 ∧ (0 : ℤ) + 1 < (2 : ℕ) ∧ (0 : ℤ) ≤ (0 : ℤ) + 0 ∧
    0 * 2 + 0 < ((0 : ℤ) + (0 : ℤ)).toNat * 2 + ((0 : ℤ) + (1 : ℤ)).toNat := by
  have hmem : (⟨(1, 0), 7/16⟩ : DiffEntry) ∈ get_diffusion_map "floydSteinberg" := by
    rw [show get_diffusion_map "floydSteinberg" = floyd_steinberg from rfl]
    exact List.mem_cons_self _ _
  exact ⟨hmem, by decide, by decide, by decide, by decide,
    error_deposits_forward "floydSteinberg" ⟨(1, 0), 7/16⟩ hmem 2 0 0
      (by decide) (by decide) (by decide) (by decide)⟩

/-! ## C6: ordered-dithering formula -/

/-- C6: in ordered mode the engine writes, at byte index cur of the buffer
(pixel coordinates x = (cur/4) mod width, y = (cur/4) div width), the palette
match of the pixel perturbed uniformly on all four channels by
channel + factor * 64, where
factor = matrix[y mod mapHeight][x mod mapWidth] / (mapHeight * mapWidth)
and 64 is the threshold constant 256 / 4 of the source. -/
theorem ordered_dither_formula (o : DitherOptions) (w h : ℕ)
    (pal : List (Option (List ℕ))) (tm : List (List ℕ)) (rng : ℕ → ℕ)
    (data : List ℚ) (ctr cur : ℕ) (htype : o.ditheringType = "ordered") :
    processPixel o w h pal tm rng (data, ctr) cur =
      (find_closest_q ((get_pixel_color_values cur data).map (fun ch =>
          ch + (((tm.getD (((cur / 4) / w) % tm.length) []).getD
              (((cur / 4) % w) % (tm.getD 0 []).length) 0 : ℕ) : ℚ) /
            ((tm.length : ℚ) * ((tm.getD 0 []).length : ℚ)) * 64)) pal).map
        (fun np => (set_pixel data cur np, ctr)) := by
  have h1 : ¬(o.ditheringType = "" ∨ o.ditheringType = "quantizationOnly") := by
    rw [htype]; decide
  have h2 : ¬(o.ditheringType = "random" ∧ o.randomDitheringType = "rgb") := by
    rw [htype]; simp
  have h3 : ¬(o.ditheringType = "random" ∧ o.randomDitheringType = "blackAndWhite") := by
    rw [htype]; simp
  have h5 : ¬(o.ditheringType = "errorDiffusion") := by rw [htype]; decide
  simp only [processPixel, if_neg h1, if_neg h2, if_neg h3, if_pos htype, if_neg h5,
    Option.bind_eq_bind, Option.some_bind]
  rw [bind_some_id]
  congr 1
  unfold ordered_dither_pixel_value pixel_xy
  norm_num

/-- C6 witness: the formula evaluated at pixel (0, 0) of a 4x4 image with the
2x2 threshold matrix and the black-and-white palette. -/
theorem ordered_dither_formula_witness :
    DitherOptions.ditheringType
      ⟨"ordered", "floydSteinberg", (2, 2), "blackAndWhite", .name "default"⟩ = "ordered" ∧
    processPixel ⟨"ordered", "floydSteinberg", (2, 2), "blackAndWhite", .name "default"⟩
        4 4 [some [0, 0, 0], some [255, 255, 255]] ([[0, 2], [3, 1]] : List (List ℕ))
        (fun _ => 0) ([128, 128, 128, 255], 0) 0 =
      (find_closest_q ((get_pixel_color_values 0 [128, 128, 128, 255]).map (fun ch =>
          ch + (((([[0, 2], [3, 1]] : List (List ℕ)).getD
                (((0 / 4) / 4) % ([[0, 2], [3, 1]] : List (List ℕ)).length) []).getD
              (((0 / 4) % 4) % (([[0, 2], [3, 1]] : List (List ℕ)).getD 0 []).length) 0 : ℕ) : ℚ) /
            ((([[0, 2], [3, 1]] : List (List ℕ)).length : ℚ) *
              ((([[0, 2], [3, 1]] : List (List ℕ)).getD 0 []).length : ℚ)) * 64))
        [some [0, 0, 0], some [255, 255, 255]]).map
        (fun np => (set_pixel [128, 128, 128, 255] 0 np, 0)) :=
  ⟨rfl, ordered_dither_formula
    ⟨"ordered", "floydSteinberg", (2, 2), "blackAndWhite", .name "default"⟩
    4 4 [some [0, 0, 0], some [255, 255, 255]] ([[0, 2], [3, 1]] : List (List ℕ))
    (fun _ => 0) [128, 128, 128, 255] 0 0 rfl⟩

/-! ## C9: color replacement -/

theorem findMatchIdx_congr (d1 d2 : List ℕ) (i : ℕ)
    (h0 : d1.getD i 0 = d2.getD i 0) (h1 : d1.getD (i + 1) 0 = d2.getD (i + 1) 0)
    (h2 : d1.getD (i + 2) 0 = d2.getD (i + 2) 0) :
    ∀ (os : List (List ℕ)) (k : ℕ), findMatchIdx d1 i os k = findMatchIdx d2 i os k := by
  intro os
  induction os with
  | nil => intro k; rfl
  | cons c rest ih =>
    intro k
    unfold findMatchIdx
    rw [show pixelMatchesColor d1 i c = pixelMatchesColor d2 i c by
      unfold pixelMatchesColor; rw [h0, h1, h2]]
    by_cases hm : pixelMatchesColor d2 i c
    · rw [if_pos hm, if_pos hm]
    · rw [if_neg hm, if_neg hm, ih]


/-- Invariant of the replace_colors raster pass over pixels k..k+m-1: the
pass aborts iff some pixel in the range first-matches an original color whose
index has no replacement; otherwise it completes, counts exactly the
unmatched pixels, leaves every unmatched pixel's four bytes unchanged and
never writes outside the range. -/
theorem replaceLoop_spec (data : List ℕ) (originals repls : List (List ℕ)) :
    ∀ (m k : ℕ) (d : List ℕ) (e : ℕ),
      d.length = data.length →
      (∀ j, 4 * k ≤ j → d.getD j 0 = data.getD j 0) →
      ((∃ p, k ≤ p ∧ p < k + m ∧ ∃ idx, findMatchIdx data (4 * p) originals 0 = some idx ∧
          repls.length ≤ idx) →
        replaceLoop originals repls (List.range' k m) (d, e) = none) ∧
      ((∀ p, k ≤ p → p < k + m → ∀ idx, findMatchIdx data (4 * p) originals 0 = some idx →
          idx < repls.length) →
        ∃ d2 e2, replaceLoop originals repls (List.range' k m) (d, e) = some (d2, e2) ∧
          d2.length = data.length ∧
          e2 = e + (List.range' k m).countP
            (fun p => (findMatchIdx data (4 * p) originals 0).isNone) ∧
          (∀ p, k ≤ p → p < k + m → findMatchIdx data (4 * p) originals 0 = none →
            ∀ c, c < 4 → d2.getD (4 * p + c) 0 = data.getD (4 * p + c) 0) ∧
          (∀ j, 4 * (k + m) ≤ j → d2.getD j 0 = data.getD j 0) ∧
          (∀ j, j < 4 * k → d2.getD j 0 = d.getD j 0)) := by
  intro m
  induction m with
  | zero =>
    intro k d e hlen hsuf
    refine ⟨?_, ?_⟩
    · rintro ⟨p, hp1, hp2, -⟩
      omega
    · intro _
      refine ⟨d, e, rfl, hlen, by simp, ?_, ?_, ?_⟩
      · intro p hp1 hp2
        omega
      · intro j hj
        exact hsuf j (by omega)
      · intro j hj
        rfl
  | succ m ih =>
    intro k d e hlen hsuf
    have hmatch_eq : findMatchIdx d (4 * k) originals 0 = findMatchIdx data (4 * k) originals 0 :=
      findMatchIdx_congr d data (4 * k) (hsuf _ (by omega)) (hsuf _ (by omega))
        (hsuf _ (by omega)) originals 0
    rw [List.range'_succ]
    cases hfm : findMatchIdx data (4 * k) originals 0 with
    | none =>
      have hstep : replaceStep originals repls (d, e) (4 * k) = some (d, e + 1) := by
        unfold replaceStep
        rw [show (d, e).1 = d from rfl, hmatch_eq, hfm]
      have hloop : replaceLoop originals repls (k :: List.range' (k + 1) m) (d, e) =
          replaceLoop originals repls (List.range' (k + 1) m) (d, e + 1) := by
        rw [replaceLoop, hstep]
      obtain ⟨iha, ihb⟩ := ih (k + 1) d (e + 1) hlen
        (fun j hj => hsuf j (by omega))
      refine ⟨?_, ?_⟩
      · rintro ⟨p, hp1, hp2, idx, hidx, hge⟩
        rw [hloop]
        rcases Nat.eq_or_lt_of_le hp1 with heq | hp1'
        · subst heq
          rw [hfm] at hidx
          exact absurd hidx (by simp)
        · exact iha ⟨p, by omega, by omega, idx, hidx, hge⟩
      · intro hgood
        obtain ⟨d2, e2, heq, hl2, hcnt, hunch, hsuf2, hpre⟩ :=
          ihb (fun p hp1 hp2 idx hidx => hgood p (by omega) (by omega) idx hidx)
        refine ⟨d2, e2, by rw [hloop]; exact heq, hl2, ?_, ?_, ?_, ?_⟩
        · rw [hcnt, List.countP_cons]
          simp [hfm]
          omega
        · intro p hp1 hp2 hnone c hc
          rcases Nat.eq_or_lt_of_le hp1 with heq | hp1'
          · subst heq
            rw [hpre (4 * k + c) (by omega)]
            exact hsuf (4 * k + c) (by omega)
          · exact hunch p (by omega) (by omega) hnone c hc
        · intro j hj
          exact hsuf2 j (by omega)
        · intro j hj
          exact hpre j (by omega)
    | some idx =>
      by_cases hlt : idx < repls.length
      · have hstep : replaceStep originals repls (d, e) (4 * k) =
            some (((d.set (4 * k) ((repls.getD idx []).getD 0 0)).set (4 * k + 1)
              ((repls.getD idx []).getD 1 0)).set (4 * k + 2)
              ((repls.getD idx []).getD 2 0), e) := by
          unfold replaceStep
          rw [show (d, e).1 = d from rfl, hmatch_eq, hfm]
          simp only [hlt, ite_true]
        obtain ⟨dd, hdd⟩ : ∃ dd, ((d.set (4 * k) ((repls.getD idx []).getD 0 0)).set (4 * k + 1)
            ((repls.getD idx []).getD 1 0)).set (4 * k + 2)
            ((repls.getD idx []).getD 2 0) = dd := ⟨_, rfl⟩
        have hddlen : dd.length = data.length := by
          rw [← hdd]
          simp [hlen]
        have hddpre : ∀ j, j < 4 * k ∨ 4 * k + 3 ≤ j → dd.getD j 0 = d.getD j 0 := by
          intro j hj
          rw [← hdd, getD_set_ne _ _ _ _ _ (by omega), getD_set_ne _ _ _ _ _ (by omega),
            getD_set_ne _ _ _ _ _ (by omega)]
        have hddsuf : ∀ j, 4 * (k + 1) ≤ j → dd.getD j 0 = data.getD j 0 := by
          intro j hj
          rw [hddpre j (by omega)]
          exact hsuf j (by omega)
        have hloop : replaceLoop originals repls (k :: List.range' (k + 1) m) (d, e) =
            replaceLoop originals repls (List.range' (k + 1) m) (dd, e) := by
          rw [replaceLoop, hstep, hdd]
        obtain ⟨iha, ihb⟩ := ih (k + 1) dd e hddlen hddsuf
        refine ⟨?_, ?_⟩
        · rintro ⟨p, hp1, hp2, idx2, hidx2, hge⟩
          rw [hloop]
          rcases Nat.eq_or_lt_of_le hp1 with heq | hp1'
          · subst heq
            rw [hfm] at hidx2
            injection hidx2 with h
            omega
          · exact iha ⟨p, by omega, by omega, idx2, hidx2, hge⟩
        · intro hgood
          obtain ⟨d2, e2, heq, hl2, hcnt, hunch, hsuf2, hpre⟩ :=
            ihb (fun p hp1 hp2 idx2 hidx2 => hgood p (by omega) (by omega) idx2 hidx2)
          refine ⟨d2, e2, by rw [hloop]; exact heq, hl2, ?_, ?_, ?_, ?_⟩
          · rw [hcnt, List.countP_cons]
            simp [hfm]
          · intro p hp1 hp2 hnone c hc
            rcases Nat.eq_or_lt_of_le hp1 with heq | hp1'
            · subst heq
              rw [hfm] at hnone
              exact absurd hnone (by simp)
            · exact hunch p (by omega) (by omega) hnone c hc
          · intro j hj
            exact hsuf2 j (by omega)
          · intro j hj
            rw [hpre j (by omega)]
            exact hddpre j (Or.inl hj)
      · have hstep : replaceStep originals repls (d, e) (4 * k) = none := by
          unfold replaceStep
          rw [show (d, e).1 = d from rfl, hmatch_eq, hfm]
          simp only [hlt, ite_false]
        have hloop : replaceLoop originals repls (k :: List.range' (k + 1) m) (d, e) = none := by
          rw [replaceLoop, hstep]
        refine ⟨fun _ => hloop, ?_⟩
        intro hgood
        exact absurd (hgood k (by omega) (by omega) idx hfm) hlt


/-- C9: if some pixel's first-matching original color has an index with no
corresponding replacement entry, replace_colors yields no result at all (the
call aborts instead of partially replacing); when a result is produced, the
reported count is exactly the number of pixels matching no original color,
and every such pixel is left unchanged while processing covers all pixels. -/
theorem replace_colors_contract (data : List ℕ) (originals replacements : List (List ℕ)) :
    ((∃ p, p < data.length / 4 ∧ ∃ idx, findMatchIdx data (4 * p) originals 0 = some idx ∧
        replacements.length ≤ idx) →
      replace_colors data originals replacements = none) ∧
    (∀ out cnt, replace_colors data originals replacements = some (out, cnt) →
      cnt = (List.range (data.length / 4)).countP
          (fun p => (findMatchIdx data (4 * p) originals 0).isNone) ∧
      ∀ p, p < data.length / 4 → findMatchIdx data (4 * p) originals 0 = none →
        ∀ c, c < 4 → out.getD (4 * p + c) 0 = data.getD (4 * p + c) 0) := by
  obtain ⟨ha, hb⟩ := replaceLoop_spec data originals replacements (data.length / 4) 0 data 0
    rfl (fun j _ => rfl)
  constructor
  · intro ⟨p, hp, idx, hidx, hge⟩
    unfold replace_colors
    rw [List.range_eq_range']
    exact ha ⟨p, by omega, by omega, idx, hidx, hge⟩
  · intro out cnt hsome
    by_cases hbad : ∃ p, p < data.length / 4 ∧ ∃ idx,
        findMatchIdx data (4 * p) originals 0 = some idx ∧ replacements.length ≤ idx
    · obtain ⟨p, hp, idx, hidx, hge⟩ := hbad
      have := ha ⟨p, by omega, by omega, idx, hidx, hge⟩
      rw [replace_colors, List.range_eq_range'] at hsome
      rw [this] at hsome
      exact absurd hsome (by simp)
    · push_neg at hbad
      obtain ⟨d2, e2, heq, hl2, hcnt, hunch, hsuf2, hpre⟩ := hb (by
        intro p hp1 hp2 idx hidx
        exact hbad p (by omega) idx hidx)
      rw [replace_colors, List.range_eq_range'] at hsome
      rw [heq] at hsome
      injection hsome with hsome
      injection hsome with hout hcnt2
      subst hout
      subst hcnt2
      refine ⟨by rw [hcnt, List.range_eq_range']; omega, ?_⟩
      intro p hp hnone c hc
      exact hunch p (by omega) (by omega) hnone c hc

/-- C9 witness: an image with a white pixel, originals black and white, and
a single replacement entry aborts (the spec scenario of section 8). -/
theorem replace_colors_contract_witness :
    ((∃ p, p < ([0, 0, 0, 255, 255, 255, 255, 255] : List ℕ).length / 4 ∧ ∃ idx,
        findMatchIdx [0, 0, 0, 255, 255, 255, 255, 255] (4 * p) [[0, 0, 0], [255, 255, 255]] 0 =
          some idx ∧ ([[17, 17, 17]] : List (List ℕ)).length ≤ idx)) ∧
    replace_colors [0, 0, 0, 255, 255, 255, 255, 255] [[0, 0, 0], [255, 255, 255]]
      [[17, 17, 17]] = none :=
  ⟨by decide,
    (replace_colors_contract [0, 0, 0, 255, 255, 255, 255, 255] [[0, 0, 0], [255, 255, 255]]
      [[17, 17, 17]]).1 (by decide)⟩

/-! ## C1: palette closure -/

/-- A hex digit's value is at most 15. -/
theorem hexVal_le (c : Char) : hexVal c ≤ 15 := by
  unfold hexVal
  split_ifs with h1 h2 h3
  · simp only [Char.isDigit, Bool.and_eq_true, decide_eq_true_eq] at h1
    have hlow : (48 : UInt32).toNat ≤ c.val.toNat := h1.1
    have hhigh : c.val.toNat ≤ (57 : UInt32).toNat := h1.2
    have e1 : (48 : UInt32).toNat = 48 := rfl
    have e2 : (57 : UInt32).toNat = 57 := rfl
    have e3 : Char.toNat c = c.val.toNat := rfl
    have e4 : Char.toNat '0' = 48 := rfl
    omega
  · simp only [Bool.and_eq_true, decide_eq_true_eq] at h2
    have hlow : (97 : UInt32).toNat ≤ c.val.toNat := h2.1
    have hhigh : c.val.toNat ≤ (102 : UInt32).toNat := h2.2
    have e1 : (97 : UInt32).toNat = 97 := rfl
    have e2 : (102 : UInt32).toNat = 102 := rfl
    have e3 : Char.toNat c = c.val.toNat := rfl
    have e4 : Char.toNat 'a' = 97 := rfl
    omega
  · simp only [Bool.and_eq_true, decide_eq_true_eq] at h3
    have hlow : (65 : UInt32).toNat ≤ c.val.toNat := h3.1
    have hhigh : c.val.toNat ≤ (70 : UInt32).toNat := h3.2
    have e1 : (65 : UInt32).toNat = 65 := rfl
    have e2 : (70 : UInt32).toNat = 70 := rfl
    have e3 : Char.toNat c = c.val.toNat := rfl
    have e4 : Char.toNat 'A' = 65 := rfl
    omega
  · omega

/-- A successful hex parse yields exactly three samples, each at most 255. -/
theorem hex_to_rgb_wf (s : String) (c : List ℕ) (h : hex_to_rgb s = some c) :
    c.length = 3 ∧ ∀ v ∈ c, v ≤ 255 := by
  unfold hex_to_rgb at h
  generalize expandShorthand (stripHash s.data) = cs at h
  unfold parseSixHex at h
  split at h
  · split at h
    · injection h with h
      subst h
      refine ⟨rfl, ?_⟩
      intro v hv
      simp only [List.mem_cons, List.not_mem_nil, or_false] at hv
      rename_i h1 h2 h3 h4 h5 h6 hhex
      rcases hv with rfl | rfl | rfl
      · have := hexVal_le h1; have := hexVal_le h2; omega
      · have := hexVal_le h3; have := hexVal_le h4; omega
      · have := hexVal_le h5; have := hexVal_le h6; omega
    · exact absurd h (by simp)
  · exact absurd h (by simp)

/-- Every entry of a resolved palette is either a failed parse or a
3-channel color with samples at most 255. -/
theorem set_color_palette_wf (spec : PaletteSpec) :
    ∀ e ∈ set_color_palette spec, e = none ∨
      ∃ c, e = some c ∧ c.length = 3 ∧ ∀ v ∈ c, v ≤ 255 := by
  intro e he
  have : ∃ s, e = hex_to_rgb s := by
    cases spec with
    | name s =>
      unfold set_color_palette at he
      obtain ⟨t, _, rfl⟩ := List.mem_map.mp he
      exact ⟨t, rfl⟩
    | colors l =>
      unfold set_color_palette at he
      obtain ⟨t, _, rfl⟩ := List.mem_map.mp he
      exact ⟨t, rfl⟩
  obtain ⟨s, rfl⟩ := this
  cases hh : hex_to_rgb s with
  | none => exact Or.inl rfl
  | some c =>
    obtain ⟨hl, hb⟩ := hex_to_rgb_wf s c hh
    exact Or.inr ⟨c, rfl, hl, hb⟩


theorem getD_mem_of_lt {α} (l : List α) (i : ℕ) (d : α) (h : i < l.length) :
    l.getD i d ∈ l := by
  rw [List.getD_eq_getElem l d h]
  exact List.getElem_mem h

theorem all_some_eq_map (l : List (Option (List ℕ))) (h : ∀ e ∈ l, e ≠ none) :
    ∃ cs : List (List ℕ), l = cs.map some := by
  induction l with
  | nil => exact ⟨[], rfl⟩
  | cons e t ih =>
    obtain ⟨cs, rfl⟩ := ih (fun x hx => h x (List.mem_cons_of_mem e hx))
    cases e with
    | none => exact absurd rfl (h none (List.mem_cons_self _ _))
    | some c => exact ⟨c :: cs, rfl⟩

/-- On a non-empty palette of 3-channel colors the matcher succeeds and
returns some palette entry with alpha 255 appended. -/
theorem find_closest_q_mem (px : List ℚ) (cs : List (List ℕ)) (hne : cs ≠ [])
    (h3 : ∀ c ∈ cs, c.length = 3) :
    ∃ win ∈ cs, find_closest_q px (cs.map some) =
      some [((win.getD 0 0 : ℕ) : ℚ), ((win.getD 1 0 : ℕ) : ℚ),
        ((win.getD 2 0 : ℕ) : ℚ), (255 : ℚ)] := by
  obtain ⟨pre, win, post, hsplit, heq, -, -⟩ := find_closest_spec px cs hne
  have hwin : win ∈ cs := by
    rw [hsplit]
    exact List.mem_append_right pre (List.mem_cons_self _ _)
  have hw3 : win.length = 3 := h3 win hwin
  obtain ⟨a, b, c, rfl⟩ := List.length_eq_three.mp hw3
  refine ⟨[a, b, c], hwin, ?_⟩
  unfold find_closest_q
  rw [heq, if_pos (by simp)]
  rfl
theorem clamp_natCast (n : ℕ) (h : n ≤ 255) : clamp_uint8 ((n : ℕ) : ℚ) = (n : ℚ) := by
  unfold clamp_uint8
  rw [if_neg (not_lt.mpr (by positivity)), if_neg (by push_neg; exact_mod_cast h)]

/-- One error deposit from pixel k never changes the bytes of pixels up to
and including k: its in-bounds target is strictly later in raster order. -/
theorem diffuseStep_preserve (w h k : ℕ) (hk : k < w * h) (hw : 0 < w) (qe : List ℚ)
    (e : DiffEntry) (hfwd : 0 < e.offset.2 ∨ (e.offset.2 = 0 ∧ 0 < e.offset.1)) (d : List ℚ) :
    (diffuseStep w h (4 * k) qe d e).length = d.length ∧
    ∀ j, j < 4 * (k + 1) → (diffuseStep w h (4 * k) qe d e).getD j 0 = d.getD j 0 := by
  simp only [diffuseStep]
  split
  · exact ⟨rfl, fun j _ => rfl⟩
  · rename_i hin
    push_neg at hin
    obtain ⟨ht1, ht2, ht3, ht4⟩ := hin
    simp only [Nat.mul_div_cancel_left k (by norm_num : (0:ℕ) < 4)] at ht1 ht2 ht3 ht4 ⊢
    have hx : k % w < w := Nat.mod_lt _ hw
    have hlt : (k / w) * w + k % w <
        (((k / w : ℕ) : ℤ) + e.offset.2).toNat * w + (((k % w : ℕ) : ℤ) + e.offset.1).toNat :=
      forward_target_lt w (k % w) (k / w) e.offset.1 e.offset.2 hx hfwd ht1 ht2 ht3
    have hkeq : (k / w) * w + k % w = k := by
      rw [Nat.mul_comm (k / w) w]
      exact Nat.div_add_mod k w
    rw [hkeq] at hlt
    constructor
    · exact length_set_pixel _ _ _
    · intro j hj
      exact getD_set_pixel_lt _ _ _ _ (by omega)

/-- The whole diffusion loop of pixel k preserves the bytes of pixels up to
and including k, and the buffer length. -/
theorem diffuse_foldl_preserve (w h k : ℕ) (hk : k < w * h) (hw : 0 < w) (qe : List ℚ)
    (l : List DiffEntry)
    (hfwd : ∀ e ∈ l, 0 < e.offset.2 ∨ (e.offset.2 = 0 ∧ 0 < e.offset.1)) (d : List ℚ) :
    (l.foldl (diffuseStep w h (4 * k) qe) d).length = d.length ∧
    (∀ j, j < 4 * (k + 1) → (l.foldl (diffuseStep w h (4 * k) qe) d).getD j 0 = d.getD j 0) := by
  induction l generalizing d with
  | nil => exact ⟨rfl, fun j _ => rfl⟩
  | cons e rest ih =>
    obtain ⟨hsl, hsg⟩ := diffuseStep_preserve w h k hk hw qe e
      (hfwd e (List.mem_cons_self _ _)) d
    obtain ⟨hrl, hrg⟩ := ih (fun x hx => hfwd x (List.mem_cons_of_mem e hx))
      (diffuseStep w h (4 * k) qe d e)
    rw [List.foldl_cons]
    refine ⟨by rw [hrl, hsl], ?_⟩
    intro j hj
    rw [hrg j hj, hsg j hj]
/-- The RGB triple a quantized pixel p of the buffer shares with some entry
of the effective palette. -/
def pixel_from_palette (cs : List (List ℕ)) (d : List ℚ) (p : ℕ) : Prop :=
  ∃ win ∈ cs, d.getD (4 * p) 0 = ((win.getD 0 0 : ℕ) : ℚ) ∧
    d.getD (4 * p + 1) 0 = ((win.getD 1 0 : ℕ) : ℚ) ∧
    d.getD (4 * p + 2) 0 = ((win.getD 2 0 : ℕ) : ℚ)

theorem set_pixel_palette_values (w h : ℕ) (d : List ℚ) (k : ℕ) (win : List ℕ)
    (hlen : d.length = w * h * 4) (hk : k < w * h) (hw3 : win.length = 3)
    (hb : ∀ v ∈ win, v ≤ 255) :
    (set_pixel d (4 * k) [((win.getD 0 0 : ℕ) : ℚ), ((win.getD 1 0 : ℕ) : ℚ),
        ((win.getD 2 0 : ℕ) : ℚ), (255 : ℚ)]).getD (4 * k) 0 = ((win.getD 0 0 : ℕ) : ℚ) ∧
    (set_pixel d (4 * k) [((win.getD 0 0 : ℕ) : ℚ), ((win.getD 1 0 : ℕ) : ℚ),
        ((win.getD 2 0 : ℕ) : ℚ), (255 : ℚ)]).getD (4 * k + 1) 0 = ((win.getD 1 0 : ℕ) : ℚ) ∧
    (set_pixel d (4 * k) [((win.getD 0 0 : ℕ) : ℚ), ((win.getD 1 0 : ℕ) : ℚ),
        ((win.getD 2 0 : ℕ) : ℚ), (255 : ℚ)]).getD (4 * k + 2) 0 = ((win.getD 2 0 : ℕ) : ℚ) := by
  have hbound : 4 * k + 3 < d.length := by rw [hlen]; omega
  refine ⟨?_, ?_, ?_⟩
  · have h0 := getD_set_pixel_at d (4 * k) [((win.getD 0 0 : ℕ) : ℚ), ((win.getD 1 0 : ℕ) : ℚ),
      ((win.getD 2 0 : ℕ) : ℚ), (255 : ℚ)] hbound 0 (by norm_num)
    simp only [Nat.add_zero] at h0
    rw [h0, List.getD_cons_zero]
    exact clamp_natCast _ (hb _ (getD_mem_of_lt win 0 0 (by omega)))
  · have h1 := getD_set_pixel_at d (4 * k) [((win.getD 0 0 : ℕ) : ℚ), ((win.getD 1 0 : ℕ) : ℚ),
      ((win.getD 2 0 : ℕ) : ℚ), (255 : ℚ)] hbound 1 (by norm_num)
    rw [h1, List.getD_cons_succ, List.getD_cons_zero]
    exact clamp_natCast _ (hb _ (getD_mem_of_lt win 1 0 (by omega)))
  · have h2 := getD_set_pixel_at d (4 * k) [((win.getD 0 0 : ℕ) : ℚ), ((win.getD 1 0 : ℕ) : ℚ),
      ((win.getD 2 0 : ℕ) : ℚ), (255 : ℚ)] hbound 2 (by norm_num)
    rw [h2, List.getD_cons_succ, List.getD_cons_succ, List.getD_cons_zero]
    exact clamp_natCast _ (hb _ (getD_mem_of_lt win 2 0 (by omega)))
/-- In every non-random mode, processing pixel k succeeds, leaves every byte
before pixel k untouched and leaves pixel k holding the RGB triple of some
palette entry. -/
theorem processPixel_palette_write (o : DitherOptions) (w h : ℕ) (cs : List (List ℕ))
    (tm : List (List ℕ)) (rng : ℕ → ℕ) (d : List ℚ) (ctr k : ℕ)
    (htype : o.ditheringType ∈
      (["", "quantizationOnly", "ordered", "errorDiffusion"] : List String))
    (hne : cs ≠ []) (h3 : ∀ c ∈ cs, c.length = 3)
    (hb : ∀ c ∈ cs, ∀ v ∈ c, v ≤ 255)
    (hlen : d.length = w * h * 4) (hk : k < w * h) :
    ∃ d2, processPixel o w h (cs.map some) tm rng (d, ctr) (4 * k) = some (d2, ctr) ∧
      d2.length = w * h * 4 ∧
      (∀ j, j < 4 * k → d2.getD j 0 = d.getD j 0) ∧
      pixel_from_palette cs d2 k := by
  have hw : 0 < w := by
    rcases Nat.eq_zero_or_pos w with rfl | hw
    · simp at hk
    · exact hw
  have hquant : ∀ px : List ℚ, ∃ win ∈ cs, find_closest_q px (cs.map some) =
      some [((win.getD 0 0 : ℕ) : ℚ), ((win.getD 1 0 : ℕ) : ℚ),
        ((win.getD 2 0 : ℕ) : ℚ), (255 : ℚ)] :=
    fun px => find_closest_q_mem px cs hne h3
  simp only [List.mem_cons, List.not_mem_nil, or_false] at htype
  have hset : ∀ win ∈ cs, ∀ dd : List ℚ, dd.length = w * h * 4 →
      (set_pixel dd (4 * k) [((win.getD 0 0 : ℕ) : ℚ), ((win.getD 1 0 : ℕ) : ℚ),
        ((win.getD 2 0 : ℕ) : ℚ), (255 : ℚ)]).length = w * h * 4 ∧
      (∀ j, j < 4 * k → (set_pixel dd (4 * k) [((win.getD 0 0 : ℕ) : ℚ),
        ((win.getD 1 0 : ℕ) : ℚ), ((win.getD 2 0 : ℕ) : ℚ), (255 : ℚ)]).getD j 0 =
        dd.getD j 0) ∧
      pixel_from_palette cs (set_pixel dd (4 * k) [((win.getD 0 0 : ℕ) : ℚ),
        ((win.getD 1 0 : ℕ) : ℚ), ((win.getD 2 0 : ℕ) : ℚ), (255 : ℚ)]) k := by
    intro win hwin dd hddlen
    obtain ⟨v0, v1, v2⟩ := set_pixel_palette_values w h dd k win hddlen hk
      (h3 win hwin) (hb win hwin)
    refine ⟨by rw [length_set_pixel, hddlen], ?_, win, hwin, v0, v1, v2⟩
    intro j hj
    exact getD_set_pixel_lt _ _ _ _ (by omega)
  rcases htype with hty | hty | hty | hty
  · obtain ⟨win, hwin, hfc⟩ := hquant (get_pixel_color_values (4 * k) d)
    have h2 : ¬(o.ditheringType = "random" ∧ o.randomDitheringType = "rgb") := by
      rw [hty]; simp
    have h3x : ¬(o.ditheringType = "random" ∧ o.randomDitheringType = "blackAndWhite") := by
      rw [hty]; simp
    have h4 : ¬(o.ditheringType = "ordered") := by rw [hty]; decide
    have h5 : ¬(o.ditheringType = "errorDiffusion") := by rw [hty]; decide
    refine ⟨_, ?_, hset win hwin d hlen⟩
    simp only [processPixel, if_pos (Or.inl hty), hfc, Option.map_some', Option.some_bind,
      if_neg h2, if_neg h3x, if_neg h4, if_neg h5]
  · obtain ⟨win, hwin, hfc⟩ := hquant (get_pixel_color_values (4 * k) d)
    have h2 : ¬(o.ditheringType = "random" ∧ o.randomDitheringType = "rgb") := by
      rw [hty]; simp
    have h3x : ¬(o.ditheringType = "random" ∧ o.randomDitheringType = "blackAndWhite") := by
      rw [hty]; simp
    have h4 : ¬(o.ditheringType = "ordered") := by rw [hty]; decide
    have h5 : ¬(o.ditheringType = "errorDiffusion") := by rw [hty]; decide
    refine ⟨_, ?_, hset win hwin d hlen⟩
    simp only [processPixel, if_pos (Or.inr hty), hfc, Option.map_some', Option.some_bind,
      if_neg h2, if_neg h3x, if_neg h4, if_neg h5]
  · obtain ⟨win, hwin, hfc⟩ := hquant (ordered_dither_pixel_value
      (get_pixel_color_values (4 * k) d) (pixel_xy (4 * k / 4) w) tm (256 / 4))
    have h1 : ¬(o.ditheringType = "" ∨ o.ditheringType = "quantizationOnly") := by
      rw [hty]; decide
    have h2 : ¬(o.ditheringType = "random" ∧ o.randomDitheringType = "rgb") := by
      rw [hty]; simp
    have h3x : ¬(o.ditheringType = "random" ∧ o.randomDitheringType = "blackAndWhite") := by
      rw [hty]; simp
    have h5 : ¬(o.ditheringType = "errorDiffusion") := by rw [hty]; decide
    refine ⟨_, ?_, hset win hwin d hlen⟩
    simp only [processPixel, if_neg h1, if_neg h2, if_neg h3x, if_pos hty, if_neg h5,
      Option.some_bind, hfc, Option.map_some']
  · obtain ⟨win, hwin, hfc⟩ := hquant (get_pixel_color_values (4 * k) d)
    have h1 : ¬(o.ditheringType = "" ∨ o.ditheringType = "quantizationOnly") := by
      rw [hty]; decide
    have h2 : ¬(o.ditheringType = "random" ∧ o.randomDitheringType = "rgb") := by
      rw [hty]; simp
    have h3x : ¬(o.ditheringType = "random" ∧ o.randomDitheringType = "blackAndWhite") := by
      rw [hty]; simp
    have h4 : ¬(o.ditheringType = "ordered") := by rw [hty]; decide
    obtain ⟨hsetl, hsetpre, hsetpal⟩ := hset win hwin d hlen
    obtain ⟨hfl, hfg⟩ := diffuse_foldl_preserve w h k hk hw
      (get_quant_error (get_pixel_color_values (4 * k) d)
        [((win.getD 0 0 : ℕ) : ℚ), ((win.getD 1 0 : ℕ) : ℚ),
          ((win.getD 2 0 : ℕ) : ℚ), (255 : ℚ)])
      (get_diffusion_map o.errorDiffusionMatrix)
      (get_diffusion_map_forward o.errorDiffusionMatrix)
      (set_pixel d (4 * k) [((win.getD 0 0 : ℕ) : ℚ), ((win.getD 1 0 : ℕ) : ℚ),
        ((win.getD 2 0 : ℕ) : ℚ), (255 : ℚ)])
    refine ⟨(get_diffusion_map o.errorDiffusionMatrix).foldl
        (diffuseStep w h (4 * k) (get_quant_error (get_pixel_color_values (4 * k) d)
          [((win.getD 0 0 : ℕ) : ℚ), ((win.getD 1 0 : ℕ) : ℚ),
            ((win.getD 2 0 : ℕ) : ℚ), (255 : ℚ)]))
        (set_pixel d (4 * k) [((win.getD 0 0 : ℕ) : ℚ), ((win.getD 1 0 : ℕ) : ℚ),
          ((win.getD 2 0 : ℕ) : ℚ), (255 : ℚ)]), ?_, ?_, ?_, ?_⟩
    · simp only [processPixel, if_neg h1, if_neg h2, if_neg h3x, if_neg h4, if_pos hty,
        Option.some_bind, hfc, Option.bind_eq_bind, Option.some_bind]
    · rw [hfl, hsetl]
    · intro j hj
      rw [hfg j (by omega), hsetpre j hj]
    · obtain ⟨win2, hwin2, hv0, hv1, hv2⟩ := hsetpal
      exact ⟨win2, hwin2, by rw [hfg (4 * k) (by omega)]; exact hv0,
        by rw [hfg (4 * k + 1) (by omega)]; exact hv1,
        by rw [hfg (4 * k + 2) (by omega)]; exact hv2⟩
/-- Invariant of the raster pass: after processing pixels k..k+m-1, all
pixels before k+m hold palette RGB triples. -/
theorem ditherLoop_closure (o : DitherOptions) (w h : ℕ) (cs : List (List ℕ))
    (tm : List (List ℕ)) (rng : ℕ → ℕ)
    (htype : o.ditheringType ∈
      (["", "quantizationOnly", "ordered", "errorDiffusion"] : List String))
    (hne : cs ≠ []) (h3 : ∀ c ∈ cs, c.length = 3)
    (hb : ∀ c ∈ cs, ∀ v ∈ c, v ≤ 255) :
    ∀ (m k : ℕ) (d : List ℚ) (ctr : ℕ),
      d.length = w * h * 4 → k + m ≤ w * h →
      (∀ p, p < k → pixel_from_palette cs d p) →
      ∃ d2 ctr2, ditherLoop o w h (cs.map some) tm rng (List.range' k m) (d, ctr) =
          some (d2, ctr2) ∧ d2.length = w * h * 4 ∧
        ∀ p, p < k + m → pixel_from_palette cs d2 p := by
  intro m
  induction m with
  | zero =>
    intro k d ctr hlen hkm hinv
    exact ⟨d, ctr, rfl, hlen, fun p hp => hinv p (by omega)⟩
  | succ m ih =>
    intro k d ctr hlen hkm hinv
    obtain ⟨d1, heq, hl1, hpre, hpal⟩ := processPixel_palette_write o w h cs tm rng d ctr k
      htype hne h3 hb hlen (by omega)
    obtain ⟨d2, ctr2, heq2, hl2, hinv2⟩ := ih (k + 1) d1 ctr hl1 (by omega) (by
      intro p hp
      rcases Nat.lt_succ_iff_lt_or_eq.mp hp with hp' | rfl
      · obtain ⟨win, hwin, v0, v1, v2⟩ := hinv p hp'
        exact ⟨win, hwin, by rw [hpre _ (by omega)]; exact v0,
          by rw [hpre _ (by omega)]; exact v1, by rw [hpre _ (by omega)]; exact v2⟩
      · exact hpal)
    refine ⟨d2, ctr2, ?_, hl2, fun p hp => hinv2 p (by omega)⟩
    rw [List.range'_succ, ditherLoop, heq]
    exact heq2
/-- C1: for every input buffer and every configuration whose ditheringType
is one of the recognized non-random values (empty, quantizationOnly,
ordered, errorDiffusion), when every entry of the effective palette parses,
dither_image returns an image in which every pixel's RGB triple equals the
RGB triple of some entry of the effective palette. -/
theorem dither_image_palette_closure (w h : ℕ) (data : List ℚ) (u : UserOptions)
    (rng : ℕ → ℕ)
    (hlen : data.length = w * h * 4)
    (htype : (mergeOptions u).ditheringType ∈
      (["", "quantizationOnly", "ordered", "errorDiffusion"] : List String))
    (hpal : ∀ e ∈ set_color_palette (mergeOptions u).palette, e ≠ none)
    (hne : set_color_palette (mergeOptions u).palette ≠ []) :
    ∃ out, dither_image w h data u rng = some out ∧
      ∀ p, p < w * h → ∃ col, some col ∈ set_color_palette (mergeOptions u).palette ∧
        out.getD (4 * p) 0 = col.getD 0 0 ∧ out.getD (4 * p + 1) 0 = col.getD 1 0 ∧
        out.getD (4 * p + 2) 0 = col.getD 2 0 := by
  obtain ⟨cs, hcs⟩ := all_some_eq_map _ hpal
  have hcsne : cs ≠ [] := by
    intro hnil
    rw [hnil] at hcs
    exact hne (by simpa using hcs)
  have hwf : ∀ c ∈ cs, c.length = 3 ∧ ∀ v ∈ c, v ≤ 255 := by
    intro c hc
    have hmem : some c ∈ set_color_palette (mergeOptions u).palette := by
      rw [hcs]
      exact List.mem_map_of_mem some hc
    rcases set_color_palette_wf _ _ hmem with habs | ⟨c2, hc2, hl, hbb⟩
    · exact absurd habs (by simp)
    · injection hc2 with hc2
      subst hc2
      exact ⟨hl, hbb⟩
  have hn : data.length / 4 = w * h := by rw [hlen]; omega
  obtain ⟨d2, ctr2, heq, hl2, hinv⟩ := ditherLoop_closure (mergeOptions u) w h cs
    (create_bayer_matrix (mergeOptions u).orderedDitheringMatrix.1
      (mergeOptions u).orderedDitheringMatrix.2) rng htype hcsne
    (fun c hc => (hwf c hc).1) (fun c hc => (hwf c hc).2)
    (w * h) 0 data 0 hlen (by omega) (fun p hp => absurd hp (by omega))
  refine ⟨d2.map to_uint8, ?_, ?_⟩
  · unfold dither_image
    simp only
    rw [hcs, hn, List.range_eq_range', heq]
    rfl
  · intro p hp
    obtain ⟨win, hwin, v0, v1, v2⟩ := hinv p (by omega)
    refine ⟨win, by rw [hcs]; exact List.mem_map_of_mem some hwin, ?_, ?_, ?_⟩
    · rw [getD_map to_uint8 d2 (4 * p) 0 0 (by rw [hl2]; omega), v0,
        to_uint8_natCast _ ((hwf win hwin).2 _ (getD_mem_of_lt win 0 0
          (by rw [(hwf win hwin).1]; omega)))]
    · rw [getD_map to_uint8 d2 (4 * p + 1) 0 0 (by rw [hl2]; omega), v1,
        to_uint8_natCast _ ((hwf win hwin).2 _ (getD_mem_of_lt win 1 0
          (by rw [(hwf win hwin).1]; omega)))]
    · rw [getD_map to_uint8 d2 (4 * p + 2) 0 0 (by rw [hl2]; omega), v2,
        to_uint8_natCast _ ((hwf win hwin).2 _ (getD_mem_of_lt win 2 0
          (by rw [(hwf win hwin).1]; omega)))]
/-- C1 witness: the default configuration (errorDiffusion, default palette)
on a 1x1 image. -/
theorem dither_image_palette_closure_witness :
    (([10, 10, 10, 255] : List ℚ).length = 1 * 1 * 4) ∧
    ((mergeOptions {}).ditheringType ∈
      (["", "quantizationOnly", "ordered", "errorDiffusion"] : List String)) ∧
    (∀ e ∈ set_color_palette (mergeOptions {}).palette, e ≠ none) ∧
    (set_color_palette (mergeOptions {}).palette ≠ []) ∧
    (∃ out, dither_image 1 1 [10, 10, 10, 255] {} (fun _ => 0) = some out ∧
      ∀ p, p < 1 * 1 → ∃ col, some col ∈ set_color_palette (mergeOptions {}).palette ∧
        out.getD (4 * p) 0 = col.getD 0 0 ∧ out.getD (4 * p + 1) 0 = col.getD 1 0 ∧
        out.getD (4 * p + 2) 0 = col.getD 2 0) :=
  ⟨by decide, by decide, by decide, by decide,
    dither_image_palette_closure 1 1 [10, 10, 10, 255] {} (fun _ => 0)
      (by decide) (by decide) (by decide) (by decide)⟩

end EpdOptimize
